import Mathlib

/-!
Shallow embedding of the multi-cli Grok provider subsystem:
model resolution (grokProvider.ts), tooling-support fallbacks
(grokToolingSupport.ts), the streaming content-generator adapter
(GrokContentGenerator.createStreamGenerator), and the sidecar worker
bridge (grokSidecarClient.ts) as an explicit state machine.
-/

namespace MultiCli

/-! ## JS string primitives

The JS string operations the sources use (`trim`, `toLowerCase`,
`startsWith`), modelled over the character list of the string so that
every definition reduces inside the kernel.  All inputs involved are
ASCII, where these agree with the JS semantics. -/

namespace Js

/-- The whitespace characters `trim` strips (ASCII fragment). -/
def isSpaceChar (c : Char) : Bool :=
  c = ' ' ∨ c = '\t' ∨ c = '\n' ∨ c = '\r'

/-- `String.prototype.trim` on the character list. -/
def trimList (l : List Char) : List Char :=
  ((l.dropWhile isSpaceChar).reverse.dropWhile isSpaceChar).reverse

/-- `String.prototype.trim`. -/
def trim (s : String) : String := ⟨trimList s.data⟩

/-- Lower-case one ASCII character. -/
def lowerChar (c : Char) : Char :=
  if c.toNat ≥ 65 ∧ c.toNat ≤ 90 then Char.ofNat (c.toNat + 32) else c

/-- `String.prototype.toLowerCase` (ASCII fragment). -/
def toLower (s : String) : String := ⟨s.data.map lowerChar⟩

/-- Whether the second list is an initial segment of the first. -/
def headSegment : List Char → List Char → Bool
  | _, [] => true
  | [], _ :: _ => false
  | c :: cs, d :: ds => c = d && headSegment cs ds

/-- `String.prototype.startsWith`. -/
def startsWith (s pat : String) : Bool := headSegment s.data pat.data

end Js

/-! ## Model resolution (grokProvider.ts) -/

namespace GrokProvider

/-- `DEFAULT_MODEL_ID` from grokProvider.ts. -/
def DEFAULT_MODEL_ID : String := "grok-4-fast-reasoning"

/-- `GROK_LEGACY_ALIASES` from grokProvider.ts. -/
def GROK_LEGACY_ALIASES : List String :=
  ["grok-beta", "grok 1.5", "grok-1.5", "grok1.5", "grok_v1.5"]

/-- `GrokProvider.normalizeModel`: `none` models a missing value or a
non-string; returns the usable model id, or `none` when unusable. -/
def normalizeModel : Option String → Option String
  | none => none
  | some value =>
    let trimmed := Js.trim value
    if trimmed = "" then none
    else
      let lower := Js.toLower trimmed
      if lower = "auto" then some DEFAULT_MODEL_ID
      else if lower ∈ GROK_LEGACY_ALIASES then some DEFAULT_MODEL_ID
      else if ¬ Js.startsWith lower "grok" then none
      else some trimmed

/-- The JS nullish-coalescing `a ?? b` on environment values: `b` is used
only when `a` is absent; a present empty string is kept. -/
def jsCoalesce (a b : Option String) : Option String :=
  match a with
  | some v => some v
  | none => b

/-- `GrokProvider.getEnvModel`: reads `GROK_MODEL ?? GROK_MODEL_ID` and
normalises the coalesced value. -/
def getEnvModel (grokModel grokModelId : Option String) : Option String :=
  normalizeModel (jsCoalesce grokModel grokModelId)

/-- `GrokProvider.resolveModel`: explicit config value if usable, else the
environment model, else the built-in default. -/
def resolveModel (configModel grokModel grokModelId : Option String) : String :=
  match normalizeModel configModel with
  | some m => m
  | none =>
    match getEnvModel grokModel grokModelId with
    | some m => m
    | none => DEFAULT_MODEL_ID

end GrokProvider

/-! ## Tooling-support fallbacks (grokToolingSupport.ts) -/

namespace GrokToolingSupport

/-- `GrokToolingSupport.pickString`: keep `value` when it is a string with
non-blank trim, else the fallback. `none` models a missing field or a
non-string value. -/
def pickString (value : Option String) (fallback : String) : String :=
  match value with
  | some s => if Js.trim s ≠ "" then s else fallback
  | none => fallback

/-- Worker reply for `tooling.summarizeText` (`GrokSummarizeTextPayload`);
the field is optional because the wire value may omit it. -/
structure GrokSummarizeTextPayload where
  summary : Option String
  deriving DecidableEq

/-- `GrokToolingSupport.summarizeText` after the sidecar reply: return the
summary when it is a non-blank string, else the original text. -/
def summarizeText (response : Option GrokSummarizeTextPayload)
    (text : String) : String :=
  match response.bind (·.summary) with
  | some summary => if Js.trim summary ≠ "" then summary else text
  | none => text

/-- Worker reply for `tooling.ensureCorrectFileContent`. -/
structure GrokEnsureCorrectFileContentPayload where
  content : Option String
  deriving DecidableEq

/-- `GrokToolingSupport.ensureCorrectFileContent` after the sidecar reply:
return the cleaned content when it is a string of positive length, else the
original content. -/
def ensureCorrectFileContent
    (response : Option GrokEnsureCorrectFileContentPayload)
    (content : String) : String :=
  match response.bind (·.content) with
  | some cleaned => if cleaned.length > 0 then cleaned else content
  | none => content

/-- Worker reply for `tooling.webSearch` / `tooling.webFetch`
(`GrokToolResultPayload`); `sources` and `error` carried as abstract
strings, only passed through. -/
structure GrokToolResultPayload where
  llmContent : Option String
  returnDisplay : Option String
  sources : Option String
  errorMessage : Option String
  deriving DecidableEq

/-- A tool result as assembled by `GrokToolingSupport.toToolResult`. -/
structure ToolResult where
  llmContent : String
  returnDisplay : String
  errorMessage : Option String
  sources : Option String
  deriving DecidableEq

/-- `GrokToolingSupport.toToolResult`: substitute the fallback strings for
missing or blank `llmContent` / `returnDisplay`. -/
def toToolResult (payload : Option GrokToolResultPayload)
    (fallbackContent fallbackDisplay : String) : ToolResult :=
  { llmContent := pickString (payload.bind (·.llmContent)) fallbackContent
    returnDisplay := pickString (payload.bind (·.returnDisplay)) fallbackDisplay
    errorMessage := payload.bind (·.errorMessage)
    sources := none }

/-- `GrokToolingSupport.toWebToolResult`: `toToolResult` plus the
pass-through of `sources` when defined. -/
def toWebToolResult (payload : Option GrokToolResultPayload)
    (fallbackContent fallbackDisplay : String) : ToolResult :=
  let base := toToolResult payload fallbackContent fallbackDisplay
  { base with sources := payload.bind (·.sources) }

/-- `GrokToolingSupport.performWebSearch` fallback wiring. -/
def performWebSearch (payload : Option GrokToolResultPayload)
    (query : String) : ToolResult :=
  toWebToolResult payload
    ("Unable to search for \"" ++ query ++ "\".")
    "Web search failed."

/-- `GrokToolingSupport.performWebFetch` fallback wiring. -/
def performWebFetch (payload : Option GrokToolResultPayload) : ToolResult :=
  toToolResult payload
    "Web fetch is unavailable for the Grok provider. Please try again later."
    "Unable to fetch external content."

/-- Worker reply for `tooling.fixEditWithInstruction`. -/
structure GrokFixEditWithInstructionPayload where
  search : Option String
  replace : Option String
  noChangesRequired : Bool
  explanation : Option String
  deriving DecidableEq

/-- A search/replace edit as assembled by
`GrokToolingSupport.toSearchReplaceEdit`. -/
structure SearchReplaceEdit where
  search : String
  replace : String
  noChangesRequired : Bool
  explanation : String
  deriving DecidableEq

/-- `GrokToolingSupport.toSearchReplaceEdit`: missing or blank
search/replace fall back to the original old/new strings. -/
def toSearchReplaceEdit (response : Option GrokFixEditWithInstructionPayload)
    (oldString newString : String) : SearchReplaceEdit :=
  { search := pickString (response.bind (·.search)) oldString
    replace := pickString (response.bind (·.replace)) newString
    noChangesRequired := match response with
      | some r => r.noChangesRequired
      | none => false
    explanation := pickString (response.bind (·.explanation))
      "Edit parameters adjusted by Grok tooling support." }

/-- A string option that is missing or blank after trimming
(non-string values are also modelled as `none`). -/
def blankOpt : Option String → Bool
  | none => true
  | some s => Js.trim s = ""

/-- A string option that is missing or the empty string. -/
def emptyOpt : Option String → Bool
  | none => true
  | some s => s.length = 0

end GrokToolingSupport

/-! ## Streaming content-generator adapter
(`GrokContentGenerator.createStreamGenerator`, src/unnamed/part_005)

The adapter listens to the bridge event emitter, queues event payloads in
arrival order, and drives an async generator.  The bridge emits zero or
more `event` payloads, then — when the result promise settles — either
`end` (on resolve) or `error` followed by `end` (on reject).  The
generator drains the queue in order, yields a text chunk per non-empty
`delta`, a function-call chunk per `toolCall`, skips everything else;
once the queue is empty and the stream has ended it either re-raises the
stream error or awaits the (settled) result promise and yields the
terminal response.  `generatorRun` is that loop as a function of the
complete event sequence and the settlement of the result promise. -/

namespace GrokContentGenerator

/-- One `event` payload delivered to the stream emitter; absent fields
model missing keys (`payload['event'] ?? ''` etc.). -/
structure StreamPayload where
  event : Option String
  text : Option String
  callId : Option String
  name : Option String
  arguments : Option String
  deriving DecidableEq

/-- One entry of `response.message.content` as inspected by
`toGenerateContentResponse`: non-objects are filtered out; objects carry
optional `type` and `text` fields; `json` is the serialized form used
when the part is neither typed text nor carries a string `text`. -/
structure MsgPart where
  isObj : Bool
  type : Option String
  text : Option String
  json : String
  deriving DecidableEq

/-- The sidecar chat terminal payload `{ message, usage }`; the usage
record is abstract (type `U`) because the adapter only passes it through. -/
structure ChatResponsePayload (U : Type) where
  content : List MsgPart
  usage : Option U
  deriving DecidableEq

/-- A chunk yielded by the adapted stream: a text delta, a tool-call
proposal, or the terminal response built by `toGenerateContentResponse`
(text parts plus pass-through usage metadata). -/
inductive GenChunk (U : Type)
  | text (t : String)
  | toolCall (callId : String) (name : String) (args : Option String)
  | final (parts : List String) (usage : Option U)
  deriving DecidableEq

/-- The text parts of `toGenerateContentResponse`: objects with
`type === 'text'` or a string `text` map to that text (`?? ''`), other
objects to their serialized form; an empty list becomes `[""]`. -/
def toResponseParts (content : List MsgPart) : List String :=
  let parts := (content.filter (·.isObj)).map fun p =>
    if p.type = some "text" ∨ p.text.isSome then p.text.getD "" else p.json
  if parts = [] then [""] else parts

/-- `GrokContentGenerator.toGenerateContentResponse` as the terminal
chunk: the text parts plus the usage metadata passed through unchanged. -/
def toGenerateContentResponse {U : Type} (resp : ChatResponsePayload U) :
    GenChunk U :=
  .final (toResponseParts resp.content) resp.usage

/-- The settlement of the chat result promise. -/
inductive StreamOutcome (U : Type)
  | ok (resp : ChatResponsePayload U)
  | err (message : String)
  deriving DecidableEq

/-- The chunk produced for one queued payload: a non-empty `delta` yields
a text chunk, a `toolCall` yields a function-call chunk, anything else is
skipped (including a `delta` whose text is missing or empty). -/
def chunkOfPayload {U : Type} (p : StreamPayload) : Option (GenChunk U) :=
  let eventType := p.event.getD ""
  if eventType = "delta" then
    let text := p.text.getD ""
    if text = "" then none else some (.text text)
  else if eventType = "toolCall" then
    some (.toolCall (p.callId.getD "") (p.name.getD "") p.arguments)
  else none

/-- The generator loop: drain the queued payloads in order, then, at end
of stream, re-raise a stream error (second component `some message`) or
yield the terminal response exactly once.  Returns the yielded chunks and
the error the generator throws, if any. -/
def generatorRun {U : Type} (events : List StreamPayload)
    (outcome : StreamOutcome U) : List (GenChunk U) × Option String :=
  match events with
  | [] =>
    match outcome with
    | .err e => ([], some e)
    | .ok resp => ([toGenerateContentResponse resp], none)
  | p :: rest =>
    let tail := generatorRun rest outcome
    match chunkOfPayload p with
    | some c => (c :: tail.1, tail.2)
    | none => tail

/-- Recogniser for terminal chunks. -/
def isFinalChunk {U : Type} : GenChunk U → Bool
  | .final _ _ => true
  | _ => false

/-- The usage record of the C3 scenario. -/
structure UsageMetadata where
  totalTokens : Nat
  deriving DecidableEq

end GrokContentGenerator

/-! ## The sidecar worker bridge (grokSidecarClient.ts)

`GrokSidecarClient` runs on a single-threaded event loop; we embed it as
an explicit state machine.  A `Cmd` is one event-loop activation: a call
issued through `callWithStream`, a cancel closure invocation, one line
arriving on the child stdout, the child `exit` event, `ensureInitialised`,
`shutdown`, or `dispose`.  `step` returns the successor state and the
list of externally observable effects of that activation, in order:
spawns, framed writes, kills, promise settlements and stream emissions.

`randomUUID` is modelled by the counter `nextReq` (fresh identifiers are
never reused, which the proofs below establish as the invariant the code
relies on).  Await-continuations inside `ensureInitialised` (set
`initialized` once the result is an object) and `shutdown` (dispose once
the shutdown call settles, errors ignored) are modelled by the `initWait`
and `shutdownWait` registers holding the correlation id they await. -/

namespace GrokSidecar

/-- The machine only needs to know whether a wire payload value is a
truthy object (`result && typeof result === 'object'`). -/
inductive WireVal
  | objVal
  | primVal
  deriving DecidableEq

/-- The errors the bridge constructs. -/
inductive SidecarError
  /-- `Sidecar exited due to signal S` (exit handler, signal non-null). -/
  | exitSignal (signal : String)
  /-- `Sidecar exited with code C` (exit handler, signal null). -/
  | exitCode (code : Option Int)
  /-- `Sidecar process terminated` (dispose). -/
  | processTerminated
  /-- `AbortError: The operation was aborted.` (cancel / abort). -/
  | abort
  /-- An in-band `error` response, message from the wire. -/
  | worker (message : String)
  deriving DecidableEq

/-- The error the exit handler rejects pending correlations with,
tagged with the exit code or signal. -/
def exitReason (code : Option Int) (signal : Option String) : SidecarError :=
  match signal with
  | some sg => .exitSignal sg
  | none => .exitCode code

/-- What a per-call `EventEmitter` emits. -/
inductive StreamEmission
  | event (payload : Option WireVal)
  | errorEv (e : SidecarError)
  | ended
  deriving DecidableEq

/-- Observable effects of one activation. -/
inductive BridgeEff
  /-- `spawn(python, [-m, grok_sidecar], ...)`; generations number the
  spawns. -/
  | spawned (generation : Nat)
  /-- One framed request line written to the child stdin. -/
  | wrote (generation : Nat) (reqId : Nat) (action : String)
  /-- `child.kill(SIGTERM)` in dispose. -/
  | killedChild (generation : Nat)
  /-- The result promise of call `reqId` resolved with the payload. -/
  | resolvedP (reqId : Nat) (payload : Option WireVal)
  /-- The result promise of call `reqId` rejected. -/
  | rejectedP (reqId : Nat) (e : SidecarError)
  /-- The stream emitter of call `reqId` emitted. -/
  | emitted (reqId : Nat) (ev : StreamEmission)
  deriving DecidableEq

/-- The client state: the child handle, spawn and correlation counters,
the initialization flag, the pending correlation ids in insertion order,
and the two await registers described above. -/
structure BridgeState where
  child : Option Nat
  procCount : Nat
  initialized : Bool
  nextReq : Nat
  pending : List Nat
  initWait : Option Nat
  shutdownWait : Option Nat
  deriving DecidableEq

/-- The state before the first call: no child, nothing pending. -/
def initState : BridgeState :=
  { child := none, procCount := 0, initialized := false, nextReq := 0,
    pending := [], initWait := none, shutdownWait := none }

/-- Resolving a result promise runs the `finalize` continuation wired in
`callWithStream`: the promise resolves, then the stream emits `end`. -/
def settleResolveEffs (id : Nat) (p : Option WireVal) : List BridgeEff :=
  [.resolvedP id p, .emitted id .ended]

/-- Rejecting a result promise runs the catch branch of `finalize`: the
promise rejects, the stream emits `error`, then `end`. -/
def settleRejectEffs (id : Nat) (e : SidecarError) : List BridgeEff :=
  [.rejectedP id e, .emitted id (.errorEv e), .emitted id .ended]

/-- `GrokSidecarClient.dispose`: clear the flag, kill a live child, drop
the handle, reject every pending correlation with the process-terminated
error and clear the map.  Both await registers are cleared: a waiting
`ensureInitialised` resumes with the rejection and a waiting `shutdown`
re-enters dispose, which is a no-op on the already-cleared state. -/
def dispose (s : BridgeState) : BridgeState × List BridgeEff :=
  let killEffs := match s.child with
    | some g => [.killedChild g]
    | none => []
  let rejEffs := s.pending.flatMap fun j => settleRejectEffs j .processTerminated
  ({ s with initialized := false, child := none, pending := [],
            initWait := none, shutdownWait := none },
   killEffs ++ rejEffs)

/-- The await-continuations that wake when correlation `id` settles:
`ensureInitialised` records success when the resolved payload is a truthy
object, and `shutdown` runs dispose whichever way its call settled.
`resolvedPayload` is `some p` when the promise resolved with `p`, `none`
when it rejected. -/
def settleContInit (s : BridgeState) (id : Nat)
    (resolvedPayload : Option (Option WireVal)) : BridgeState :=
  if s.initWait = some id then
    { s with initWait := none,
             initialized := s.initialized ||
               (match resolvedPayload with
                | some (some .objVal) => true
                | _ => false) }
  else s

def settleCont (s : BridgeState) (id : Nat)
    (resolvedPayload : Option (Option WireVal)) :
    BridgeState × List BridgeEff :=
  let s₁ := settleContInit s id resolvedPayload
  if s₁.shutdownWait = some id then
    dispose { s₁ with shutdownWait := none }
  else (s₁, [])

/-- `GrokSidecarClient.ensureProcess`: reuse a live child, else spawn a
fresh generation. -/
def ensureProcess (s : BridgeState) : BridgeState × List BridgeEff × Nat :=
  match s.child with
  | some g => (s, [], g)
  | none =>
    let g := s.procCount + 1
    ({ s with child := some g, procCount := g }, [.spawned g], g)

/-- `GrokSidecarClient.callWithStream`: ensure a process, draw a fresh
correlation id, register the pending entry, write the framed request. -/
def callWithStream (s : BridgeState) (action : String) :
    BridgeState × List BridgeEff × Nat :=
  let (s₁, effs, g) := ensureProcess s
  let id := s₁.nextReq
  ({ s₁ with nextReq := id + 1, pending := s₁.pending ++ [id] },
   effs ++ [.wrote g id action], id)

/-- The `cancel` closure of `callWithStream`: if the map still holds this
call's entry (identifier non-reuse makes the entry-identity check of the
source equivalent to membership), remove it and reject with the abort
error; otherwise do nothing. -/
def cancelCall (s : BridgeState) (id : Nat) : BridgeState × List BridgeEff :=
  if id ∈ s.pending then
    let s₁ := { s with pending := s.pending.erase id }
    let (s₂, contEffs) := settleCont s₁ id none
    (s₂, settleRejectEffs id .abort ++ contEffs)
  else (s, [])

/-- A parsed stdout line that passed `isSidecarMessage` (a string `type`
field); other fields may be absent. -/
structure SidecarMessage where
  type : String
  requestId : Option Nat
  payload : Option WireVal
  errorMessage : Option String
  deriving DecidableEq

/-- `message.error?.message || 'Unknown sidecar error'`. -/
def wireErrorMessage : Option String → String
  | some msg => if msg = "" then "Unknown sidecar error" else msg
  | none => "Unknown sidecar error"

/-- `GrokSidecarClient.handleLine`: `none` models a line that failed to
parse or failed `isSidecarMessage` (logged and dropped).  `event` routes
to the pending stream only; `result` and `error` settle and remove the
pending entry if present and are otherwise discarded; unknown types are
logged and dropped. -/
def handleLine (s : BridgeState) : Option SidecarMessage →
    BridgeState × List BridgeEff
  | none => (s, [])
  | some m =>
    if m.type = "event" then
      match m.requestId with
      | some id =>
        if id ∈ s.pending then (s, [.emitted id (.event m.payload)])
        else (s, [])
      | none => (s, [])
    else if m.type = "result" then
      match m.requestId with
      | some id =>
        if id ∈ s.pending then
          let s₁ := { s with pending := s.pending.erase id }
          let (s₂, contEffs) := settleCont s₁ id (some m.payload)
          (s₂, settleResolveEffs id m.payload ++ contEffs)
        else (s, [])
      | none => (s, [])
    else if m.type = "error" then
      match m.requestId with
      | some id =>
        if id ∈ s.pending then
          let s₁ := { s with pending := s.pending.erase id }
          let (s₂, contEffs) := settleCont s₁ id none
          (s₂, settleRejectEffs id (.worker (wireErrorMessage m.errorMessage))
                ++ contEffs)
        else (s, [])
      | none => (s, [])
    else (s, [])

/-- The `exit` handler installed in `ensureProcess`: reject every pending
correlation with the exit reason, clear the map, drop the child handle,
clear the initialization flag; then the continuations of the settled
correlations wake (a waiting `ensureInitialised` resumes with the
rejection, a waiting `shutdown` enters dispose on the already-cleared
state). -/
def onExit (s : BridgeState) (code : Option Int) (signal : Option String) :
    BridgeState × List BridgeEff :=
  let reason := exitReason code signal
  let rejEffs := s.pending.flatMap fun j => settleRejectEffs j reason
  let s₁ := { s with pending := [], child := none, initialized := false }
  let s₂ :=
    if (match s.initWait with
        | some i => decide (i ∈ s.pending)
        | none => false) then
      { s₁ with initWait := none }
    else s₁
  if (match s.shutdownWait with
      | some i => decide (i ∈ s.pending)
      | none => false) then
    let (s₃, dEffs) := dispose { s₂ with shutdownWait := none }
    (s₃, rejEffs ++ dEffs)
  else (s₂, rejEffs)

/-- The outcome `ensureInitialised` reports to its caller. -/
inductive InitOutcome
  /-- Already initialized: resolve immediately. -/
  | alreadyInitialized
  /-- `GROK_API_KEY is required ...` thrown (missing or falsy key). -/
  | missingApiKey
  /-- The handshake request was written; the caller awaits `requestSent`. -/
  | requestSent (id : Nat)
  deriving DecidableEq

/-- `GrokSidecarClient.ensureInitialised` up to its await point: return at
once when initialized, throw when the key is missing or empty, else send
the `initialize` request and record the awaited correlation. -/
def ensureInitialised (s : BridgeState) (apiKey : Option String) :
    BridgeState × List BridgeEff × InitOutcome :=
  if s.initialized then (s, [], .alreadyInitialized)
  else
    match apiKey with
    | none => (s, [], .missingApiKey)
    | some k =>
      if k = "" then (s, [], .missingApiKey)
      else
        let (s₁, effs, id) := callWithStream s "initialize"
        ({ s₁ with initWait := some id }, effs, .requestSent id)

/-- `GrokSidecarClient.shutdown` up to its await point: send the shutdown
request and record the awaited correlation; dispose runs (errors ignored)
once that correlation settles, via `settleCont`. -/
def shutdownBegin (s : BridgeState) : BridgeState × List BridgeEff :=
  let (s₁, effs, id) := callWithStream s "shutdown"
  ({ s₁ with shutdownWait := some id }, effs)

/-- One event-loop activation of the client. -/
inductive Cmd
  /-- A caller issues a call through `callWithStream` (`chat`,
  `tooling.*`, `toolResult`, ...). -/
  | call (action : String)
  /-- A caller invokes the cancel closure of a call. -/
  | cancel (id : Nat)
  /-- One line arrives on the child stdout. -/
  | line (m : Option SidecarMessage)
  /-- The child process exits. -/
  | exit (code : Option Int) (signal : Option String)
  /-- A caller invokes `ensureInitialised`. -/
  | initBegin (apiKey : Option String)
  /-- A caller invokes `shutdown`. -/
  | shutdownBegin
  /-- A caller invokes `dispose` directly. -/
  | disposeCmd
  deriving DecidableEq

/-- The step function of the machine. -/
def step (s : BridgeState) : Cmd → BridgeState × List BridgeEff
  | .call action =>
    let (s₁, effs, _) := callWithStream s action
    (s₁, effs)
  | .cancel id => cancelCall s id
  | .line m => handleLine s m
  | .exit code signal => onExit s code signal
  | .initBegin apiKey =>
    let (s₁, effs, _) := ensureInitialised s apiKey
    (s₁, effs)
  | .shutdownBegin => shutdownBegin s
  | .disposeCmd => dispose s

/-- A run of the machine: the final state and all effects in order. -/
def run (s : BridgeState) : List Cmd → BridgeState × List BridgeEff
  | [] => (s, [])
  | c :: cs =>
    let (s₁, effs₁) := step s c
    let (s₂, effs₂) := run s₁ cs
    (s₂, effs₁ ++ effs₂)

/-- Well-formedness: pending ids and awaited ids are below the freshness
counter, and the pending list has no duplicates. -/
def WF (s : BridgeState) : Prop :=
  (∀ j ∈ s.pending, j < s.nextReq) ∧ s.pending.Nodup ∧
  (∀ i, s.initWait = some i → i < s.nextReq) ∧
  (∀ i, s.shutdownWait = some i → i < s.nextReq)

/-- Whether an effect concerns the correlation id. -/
def mentions (id : Nat) : BridgeEff → Bool
  | .wrote _ j _ => j = id
  | .resolvedP j _ => j = id
  | .rejectedP j _ => j = id
  | .emitted j _ => j = id
  | _ => false

/-- The settle/end projection of an effect onto one correlation id:
`some true` for a settlement of that id (resolve or reject), `some false`
for the end-of-stream emission of that id, `none` otherwise. -/
def seProj (id : Nat) : BridgeEff → Option Bool
  | .resolvedP j _ => if j = id then some true else none
  | .rejectedP j _ => if j = id then some true else none
  | .emitted j ev =>
    if j = id then
      match ev with
      | .ended => some false
      | _ => none
    else none
  | _ => none

/-- The settle/end trace of an effect list for one correlation id. -/
def seTrace (id : Nat) (effs : List BridgeEff) : List Bool :=
  effs.filterMap (seProj id)

end GrokSidecar

/-! # Theorems -/

open GrokProvider GrokToolingSupport GrokContentGenerator GrokSidecar

/-! ## C9: model resolution precedence -/

/-- C9 counterexample: with no configuration value, the primary variable
set to the unusable `gpt-4`, and the secondary alias set to the usable
`grok-3`, resolution returns the built-in default instead of the alias —
so the secondary alias is NOT used whenever the higher-precedence sources
yield no usable value, refuting the claim at this input. -/
theorem claim_C9_counterexample :
    normalizeModel (some "gpt-4") = none ∧
    normalizeModel (some "grok-3") = some "grok-3" ∧
    resolveModel none (some "gpt-4") (some "grok-3") ≠ "grok-3" := by
  decide

/-- C9 (amended): resolution precedence is explicit configuration value,
then `GROK_MODEL`, then `GROK_MODEL_ID`, then the built-in default, where
the secondary alias is consulted only when the primary variable is
entirely unset: a set-but-unusable primary falls directly to the built-in
default, skipping the alias. -/
theorem claim_C9_resolveModel_precedence :
    ∀ (c gm gid : Option String) (m : String),
      (normalizeModel c = some m → resolveModel c gm gid = m) ∧
      (normalizeModel c = none → gm = none → normalizeModel gid = some m →
        resolveModel c gm gid = m) ∧
      (normalizeModel c = none → ∀ v, gm = some v →
        normalizeModel (some v) = none →
        resolveModel c gm gid = DEFAULT_MODEL_ID) ∧
      (normalizeModel c = none → ∀ v, gm = some v →
        normalizeModel (some v) = some m → resolveModel c gm gid = m) ∧
      (normalizeModel c = none → gm = none → normalizeModel gid = none →
        resolveModel c gm gid = DEFAULT_MODEL_ID) := by
  intro c gm gid m
  refine ⟨?_, ?_, ?_, ?_, ?_⟩
  · intro h
    simp [resolveModel, h]
  · intro hc hgm hgid
    simp [resolveModel, hc, getEnvModel, jsCoalesce, hgm, hgid]
  · intro hc v hgm hv
    simp [resolveModel, hc, getEnvModel, jsCoalesce, hgm, hv]
  · intro hc v hgm hv
    simp [resolveModel, hc, getEnvModel, jsCoalesce, hgm, hv]
  · intro hc hgm hgid
    simp [resolveModel, hc, getEnvModel, jsCoalesce, hgm, hgid]

/-- C9 amended witness: the set-but-unusable primary variable case at a
concrete input. -/
theorem claim_C9_resolveModel_precedence_witness :
    resolveModel none (some "gpt-4") (some "grok-3") = DEFAULT_MODEL_ID :=
  (claim_C9_resolveModel_precedence none (some "gpt-4") (some "grok-3")
      "grok-3").2.2.1 (by decide) "gpt-4" rfl (by decide)

/-! ## C10: tooling-support fallbacks -/

/-- C10: every tooling-support helper substitutes its well-defined
fallback when the worker reply omits or blanks the expected field:
`summarizeText` returns the original text, `ensureCorrectFileContent` the
original content, web search and web fetch their failure strings for
`llmContent`/`returnDisplay`, and `fixEditWithInstruction` the original
old/new strings for search/replace. -/
theorem claim_C10_tooling_fallbacks :
    ∀ (sresp : Option GrokSummarizeTextPayload) (text : String)
      (fresp : Option GrokEnsureCorrectFileContentPayload) (content : String)
      (wresp : Option GrokToolResultPayload) (query : String)
      (eresp : Option GrokFixEditWithInstructionPayload) (oldS newS : String),
      (blankOpt (sresp.bind (·.summary)) = true →
        summarizeText sresp text = text) ∧
      (emptyOpt (fresp.bind (·.content)) = true →
        ensureCorrectFileContent fresp content = content) ∧
      (blankOpt (wresp.bind (·.llmContent)) = true →
        (performWebSearch wresp query).llmContent =
          "Unable to search for \"" ++ query ++ "\".") ∧
      (blankOpt (wresp.bind (·.returnDisplay)) = true →
        (performWebSearch wresp query).returnDisplay = "Web search failed.") ∧
      (blankOpt (wresp.bind (·.llmContent)) = true →
        (performWebFetch wresp).llmContent =
          "Web fetch is unavailable for the Grok provider. Please try again later.") ∧
      (blankOpt (wresp.bind (·.returnDisplay)) = true →
        (performWebFetch wresp).returnDisplay =
          "Unable to fetch external content.") ∧
      (blankOpt (eresp.bind (·.search)) = true →
        (toSearchReplaceEdit eresp oldS newS).search = oldS) ∧
      (blankOpt (eresp.bind (·.replace)) = true →
        (toSearchReplaceEdit eresp oldS newS).replace = newS) := by
  intro sresp text fresp content wresp query eresp oldS newS
  refine ⟨?_, ?_, ?_, ?_, ?_, ?_, ?_, ?_⟩
  · intro h
    cases hs : sresp.bind (·.summary) with
    | none => simp [summarizeText, hs]
    | some v =>
      rw [hs] at h
      simp [blankOpt] at h
      simp [summarizeText, hs, h]
  · intro h
    cases hs : fresp.bind (·.content) with
    | none => simp [ensureCorrectFileContent, hs]
    | some v =>
      rw [hs] at h
      simp [emptyOpt] at h
      simp [ensureCorrectFileContent, hs, h]
  · intro h
    cases hs : wresp.bind (·.llmContent) with
    | none =>
      simp [performWebSearch, toWebToolResult, toToolResult, pickString, hs]
    | some v =>
      rw [hs] at h
      simp [blankOpt] at h
      simp [performWebSearch, toWebToolResult, toToolResult, pickString, hs, h]
  · intro h
    cases hs : wresp.bind (·.returnDisplay) with
    | none =>
      simp [performWebSearch, toWebToolResult, toToolResult, pickString, hs]
    | some v =>
      rw [hs] at h
      simp [blankOpt] at h
      simp [performWebSearch, toWebToolResult, toToolResult, pickString, hs, h]
  · intro h
    cases hs : wresp.bind (·.llmContent) with
    | none => simp [performWebFetch, toToolResult, pickString, hs]
    | some v =>
      rw [hs] at h
      simp [blankOpt] at h
      simp [performWebFetch, toToolResult, pickString, hs, h]
  · intro h
    cases hs : wresp.bind (·.returnDisplay) with
    | none => simp [performWebFetch, toToolResult, pickString, hs]
    | some v =>
      rw [hs] at h
      simp [blankOpt] at h
      simp [performWebFetch, toToolResult, pickString, hs, h]
  · intro h
    cases hs : eresp.bind (·.search) with
    | none => simp [toSearchReplaceEdit, pickString, hs]
    | some v =>
      rw [hs] at h
      simp [blankOpt] at h
      simp [toSearchReplaceEdit, pickString, hs, h]
  · intro h
    cases hs : eresp.bind (·.replace) with
    | none => simp [toSearchReplaceEdit, pickString, hs]
    | some v =>
      rw [hs] at h
      simp [blankOpt] at h
      simp [toSearchReplaceEdit, pickString, hs, h]

/-- C10 witness: all eight fallbacks at concrete inputs (every field
missing or blank). -/
theorem claim_C10_tooling_fallbacks_witness :
    summarizeText (some ⟨some "  "⟩) "orig" = "orig" ∧
    ensureCorrectFileContent (some ⟨some ""⟩) "body" = "body" ∧
    (performWebSearch none "q").llmContent = "Unable to search for \"q\"." ∧
    (performWebSearch none "q").returnDisplay = "Web search failed." ∧
    (performWebFetch (some ⟨some " ", none, none, none⟩)).llmContent =
      "Web fetch is unavailable for the Grok provider. Please try again later." ∧
    (performWebFetch none).returnDisplay = "Unable to fetch external content." ∧
    (toSearchReplaceEdit none "old" "new").search = "old" ∧
    (toSearchReplaceEdit (some ⟨none, some "", false, none⟩) "old" "new").replace
      = "new" := by
  have h := claim_C10_tooling_fallbacks (some ⟨some "  "⟩) "orig"
    (some ⟨some ""⟩) "body" none "q" none "old" "new"
  have h₂ := claim_C10_tooling_fallbacks none "orig" none "body"
    (some ⟨some " ", none, none, none⟩) "q"
    (some ⟨none, some "", false, none⟩) "old" "new"
  exact ⟨h.1 (by decide), h.2.1 (by decide), h.2.2.1 (by decide),
    h.2.2.2.1 (by decide), h₂.2.2.2.2.1 (by decide),
    h.2.2.2.2.2.1 (by decide), h.2.2.2.2.2.2.1 (by decide),
    h₂.2.2.2.2.2.2.2 (by decide)⟩

/-! ## C2 / C3: the adapted content-generator stream -/

/-- An event payload never maps to a terminal chunk. -/
theorem chunkOfPayload_not_final {U : Type} (p : StreamPayload)
    (c : GenChunk U) (h : chunkOfPayload p = some c) :
    isFinalChunk c = false := by
  cases c with
  | text t => rfl
  | toolCall i n a => rfl
  | final parts u =>
    exfalso
    simp only [chunkOfPayload] at h
    split_ifs at h <;> simp at h

/-- C2 counterexample: when the underlying stream ends abnormally (here a
stream error with no events), the generator yields no chunk at all — in
particular no terminal element — and instead re-raises the error, refuting
the claim that a terminal element is produced exactly once even in the
abnormal case. -/
theorem claim_C2_counterexample :
    (generatorRun ([] : List StreamPayload)
        (StreamOutcome.err (U := Unit) "boom")).1.countP isFinalChunk = 0 ∧
    (generatorRun ([] : List StreamPayload)
        (StreamOutcome.err (U := Unit) "boom")).2 = some "boom" := by
  decide

/-- C2 (amended): when the event stream ends normally, the generator
yields the terminal element exactly once, as its last chunk, and throws
nothing; when the stream ends abnormally, the generator yields the
buffered data chunks, yields no terminal element, and re-raises the
stream error instead. -/
theorem claim_C2_terminal_element :
    ∀ (U : Type) (events : List StreamPayload) (resp : ChatResponsePayload U)
      (e : String),
      (generatorRun events (.ok resp)).1.countP isFinalChunk = 1 ∧
      (generatorRun events (.ok resp)).1.getLast? =
        some (toGenerateContentResponse resp) ∧
      (generatorRun events (.ok resp)).2 = none ∧
      (generatorRun events (StreamOutcome.err (U := U) e)).1.countP
        isFinalChunk = 0 ∧
      (generatorRun events (StreamOutcome.err (U := U) e)).2 = some e := by
  intro U events resp e
  induction events with
  | nil =>
    refine ⟨?_, ?_, rfl, ?_, rfl⟩
    · simp [generatorRun, isFinalChunk, toGenerateContentResponse]
    · simp [generatorRun]
    · simp [generatorRun]
  | cons p rest ih =>
    obtain ⟨ih₁, ih₂, ih₃, ih₄, ih₅⟩ := ih
    cases hc : chunkOfPayload (U := U) p with
    | none =>
      refine ⟨?_, ?_, ?_, ?_, ?_⟩ <;> simp only [generatorRun, hc] <;>
        assumption
    | some c =>
      have hnf := chunkOfPayload_not_final p c hc
      refine ⟨?_, ?_, ?_, ?_, ?_⟩
      · simp only [generatorRun, hc]
        simp [List.countP_cons, hnf, ih₁]
      · simp only [generatorRun, hc]
        have hmem : toGenerateContentResponse resp ∈
            (generatorRun rest (.ok resp)).1.getLast? := by
          rw [Option.mem_def]
          exact ih₂
        have := List.mem_getLast?_cons (y := c) hmem
        rw [Option.mem_def] at this
        exact this
      · simp only [generatorRun, hc]
        exact ih₃
      · simp only [generatorRun, hc]
        simp [List.countP_cons, hnf, ih₄]
      · simp only [generatorRun, hc]
        exact ih₅

/-! ## Bridge infrastructure lemmas -/

namespace GrokSidecar

/-- An effect that does not concern `id` projects to nothing in the
settle/end trace of `id`. -/
theorem seProj_none_of_not_mentions {id : Nat} {e : BridgeEff}
    (h : mentions id e = false) : seProj id e = none := by
  cases e <;> simp [mentions] at h ⊢ <;> simp [seProj, h]

/-- The settle/end trace distributes over append. -/
theorem seTrace_append (id : Nat) (a b : List BridgeEff) :
    seTrace id (a ++ b) = seTrace id a ++ seTrace id b :=
  List.filterMap_append a b (seProj id)

theorem seTrace_settleResolveEffs (id j : Nat) (p : Option WireVal) :
    seTrace id (settleResolveEffs j p) =
      if j = id then [true, false] else [] := by
  by_cases h : j = id <;> simp [seTrace, settleResolveEffs, seProj, h]

theorem seTrace_settleRejectEffs (id j : Nat) (r : SidecarError) :
    seTrace id (settleRejectEffs j r) =
      if j = id then [true, false] else [] := by
  by_cases h : j = id <;> simp [seTrace, settleRejectEffs, seProj, h]

theorem mentions_settleResolveEffs {id j : Nat} {p : Option WireVal}
    (h : j ≠ id) : ∀ e ∈ settleResolveEffs j p, mentions id e = false := by
  simp [settleResolveEffs, mentions, h]

theorem mentions_settleRejectEffs {id j : Nat} {r : SidecarError}
    (h : j ≠ id) : ∀ e ∈ settleRejectEffs j r, mentions id e = false := by
  simp [settleRejectEffs, mentions, h]

/-- Rejecting a whole pending list produces no trace for an id outside it. -/
theorem seTrace_rejectAll_not_mem {id : Nat} {l : List Nat} {r : SidecarError}
    (h : id ∉ l) :
    seTrace id (l.flatMap fun j => settleRejectEffs j r) = [] := by
  induction l with
  | nil => rfl
  | cons a t ih =>
    rw [List.flatMap_cons, seTrace_append, seTrace_settleRejectEffs]
    have ha : a ≠ id := fun hc => h (hc ▸ List.mem_cons_self a t)
    have ht : id ∉ t := fun hc => h (List.mem_cons_of_mem a hc)
    simp [ha, ih ht]

/-- Rejecting a duplicate-free pending list containing `id` settles `id`
exactly once and ends its stream exactly once, in that order. -/
theorem seTrace_rejectAll_mem {id : Nat} {l : List Nat} {r : SidecarError}
    (hd : l.Nodup) (h : id ∈ l) :
    seTrace id (l.flatMap fun j => settleRejectEffs j r) = [true, false] := by
  induction l with
  | nil => cases h
  | cons a t ih =>
    rw [List.flatMap_cons, seTrace_append, seTrace_settleRejectEffs]
    rcases List.mem_cons.mp h with h₁ | h₂
    · have ha : a = id := h₁.symm
      have hnt : id ∉ t := ha ▸ (List.nodup_cons.mp hd).1
      simp [ha, seTrace_rejectAll_not_mem hnt]
    · have ha : a ≠ id := by
        intro hc
        exact (List.nodup_cons.mp hd).1 (hc ▸ h₂)
      simp [ha, ih (List.nodup_cons.mp hd).2 h₂]

theorem mentions_rejectAll {id : Nat} {l : List Nat} {r : SidecarError}
    (h : id ∉ l) :
    ∀ e ∈ l.flatMap (fun j => settleRejectEffs j r), mentions id e = false := by
  intro e he
  obtain ⟨j, hj, hje⟩ := List.mem_flatMap.mp he
  have : j ≠ id := fun hc => h (hc ▸ hj)
  exact mentions_settleRejectEffs this e hje

theorem rejectedP_mem_rejectAll {id : Nat} {l : List Nat} {r : SidecarError}
    (h : id ∈ l) :
    BridgeEff.rejectedP id r ∈ l.flatMap (fun j => settleRejectEffs j r) := by
  refine List.mem_flatMap.mpr ⟨id, h, ?_⟩
  simp [settleRejectEffs]

/-- The state after dispose. -/
theorem dispose_state (s : BridgeState) :
    (dispose s).1 =
      { s with
          initialized := false,
          child := none,
          pending := [],
          initWait := none,
          shutdownWait := none } := rfl

theorem seTrace_dispose {id : Nat} {s : BridgeState} (hd : s.pending.Nodup) :
    seTrace id (dispose s).2 =
      if id ∈ s.pending then [true, false] else [] := by
  have hkill : seTrace id (match s.child with
      | some g => [BridgeEff.killedChild g]
      | none => []) = [] := by
    cases s.child <;> simp [seTrace, seProj]
  rw [show (dispose s).2 = (match s.child with
      | some g => [BridgeEff.killedChild g]
      | none => []) ++
      s.pending.flatMap (fun j => settleRejectEffs j .processTerminated)
    from rfl, seTrace_append, hkill]
  by_cases h : id ∈ s.pending
  · simp [h, seTrace_rejectAll_mem hd h]
  · simp [h, seTrace_rejectAll_not_mem h]

theorem mentions_dispose {id : Nat} {s : BridgeState} (h : id ∉ s.pending) :
    ∀ e ∈ (dispose s).2, mentions id e = false := by
  intro e he
  rw [show (dispose s).2 = (match s.child with
      | some g => [BridgeEff.killedChild g]
      | none => []) ++
      s.pending.flatMap (fun j => settleRejectEffs j .processTerminated)
    from rfl] at he
  rcases List.mem_append.mp he with h₁ | h₂
  · cases hc : s.child <;> rw [hc] at h₁ <;> simp at h₁
    rw [h₁]
    rfl
  · exact mentions_rejectAll h e h₂

/-- The init-continuation changes only `initWait` and `initialized`. -/
theorem settleContInit_shape (s : BridgeState) (id : Nat)
    (rp : Option (Option WireVal)) :
    (settleContInit s id rp).pending = s.pending ∧
    (settleContInit s id rp).nextReq = s.nextReq ∧
    (settleContInit s id rp).child = s.child ∧
    (settleContInit s id rp).procCount = s.procCount ∧
    (settleContInit s id rp).shutdownWait = s.shutdownWait ∧
    ((settleContInit s id rp).initWait = none ∨
      (settleContInit s id rp).initWait = s.initWait) := by
  unfold settleContInit
  split_ifs <;> simp

/-- The settle continuation leaves the pending list unchanged or clears
it (dispose). -/
theorem settleCont_pending_cases (s : BridgeState) (id : Nat)
    (rp : Option (Option WireVal)) :
    (settleCont s id rp).1.pending = s.pending ∨
    (settleCont s id rp).1.pending = [] := by
  simp only [settleCont]
  split_ifs with h
  · right
    simp [dispose]
  · left
    exact (settleContInit_shape s id rp).1

theorem settleCont_pending_sub (s : BridgeState) (id : Nat)
    (rp : Option (Option WireVal)) :
    (settleCont s id rp).1.pending ⊆ s.pending := by
  rcases settleCont_pending_cases s id rp with h | h <;> rw [h]
  · exact fun x hx => hx
  · exact fun x hx => absurd hx (List.not_mem_nil x)

theorem settleCont_nextReq (s : BridgeState) (id : Nat)
    (rp : Option (Option WireVal)) :
    (settleCont s id rp).1.nextReq = s.nextReq := by
  simp only [settleCont]
  split_ifs with h
  · simp [dispose, (settleContInit_shape s id rp).2.1]
  · exact (settleContInit_shape s id rp).2.1

/-- The waits after the settle continuation are cleared or unchanged. -/
theorem settleCont_waits (s : BridgeState) (id : Nat)
    (rp : Option (Option WireVal)) :
    ((settleCont s id rp).1.initWait = none ∨
      (settleCont s id rp).1.initWait = s.initWait) ∧
    ((settleCont s id rp).1.shutdownWait = none ∨
      (settleCont s id rp).1.shutdownWait = s.shutdownWait) := by
  simp only [settleCont]
  split_ifs with h
  · constructor
    · left
      simp [dispose]
    · left
      simp [dispose]
  · exact ⟨(settleContInit_shape s id rp).2.2.2.2.2,
      .inr (settleContInit_shape s id rp).2.2.2.2.1⟩

theorem settleCont_wf {s : BridgeState} {id : Nat}
    {rp : Option (Option WireVal)} (hwf : WF s) :
    WF (settleCont s id rp).1 := by
  obtain ⟨hb, hn, hiw, hsw⟩ := hwf
  have hp := settleCont_pending_cases s id rp
  have hnr := settleCont_nextReq s id rp
  have hw := settleCont_waits s id rp
  refine ⟨?_, ?_, ?_, ?_⟩
  · intro j hj
    rw [hnr]
    rcases hp with h | h
    · exact hb j (h ▸ hj)
    · rw [h] at hj
      cases hj
  · rcases hp with h | h <;> rw [h]
    · exact hn
    · exact List.nodup_nil
  · intro i hi
    rw [hnr]
    rcases hw.1 with h | h
    · rw [h] at hi
      cases hi
    · exact hiw i (h ▸ hi)
  · intro i hi
    rw [hnr]
    rcases hw.2 with h | h
    · rw [h] at hi
      cases hi
    · exact hsw i (h ▸ hi)

/-- Trace of the settle continuation for any id: nothing, or (via
dispose) one settle and one end for an id that was pending, after which
nothing is pending. -/
theorem seTrace_settleCont_cases {id' : Nat} {s : BridgeState} {id : Nat}
    {rp : Option (Option WireVal)} (hd : s.pending.Nodup) :
    seTrace id' (settleCont s id rp).2 = [] ∨
    (seTrace id' (settleCont s id rp).2 = [true, false] ∧
      id' ∈ s.pending ∧ (settleCont s id rp).1.pending = []) := by
  simp only [settleCont]
  split_ifs with h
  · have hpend : ({ settleContInit s id rp with shutdownWait := none }
        : BridgeState).pending = s.pending :=
      (settleContInit_shape s id rp).1
    have hdd : ({ settleContInit s id rp with shutdownWait := none }
        : BridgeState).pending.Nodup := by
      rw [hpend]
      exact hd
    rw [seTrace_dispose hdd, hpend]
    by_cases hm : id' ∈ s.pending
    · right
      simp [hm, dispose]
    · left
      simp [hm]
  · left
    rfl

theorem mentions_settleCont {id' : Nat} {s : BridgeState} {id : Nat}
    {rp : Option (Option WireVal)} (h : id' ∉ s.pending) :
    ∀ e ∈ (settleCont s id rp).2, mentions id' e = false := by
  simp only [settleCont]
  split_ifs with hc
  · have hpend : ({ settleContInit s id rp with shutdownWait := none }
        : BridgeState).pending = s.pending :=
      (settleContInit_shape s id rp).1
    exact mentions_dispose (hpend ▸ h)
  · intro e he
    cases he

/-- A list of effects none of which concern `id` traces to nothing. -/
theorem seTrace_eq_nil {id : Nat} {l : List BridgeEff}
    (h : ∀ e ∈ l, mentions id e = false) : seTrace id l = [] :=
  List.filterMap_eq_nil_iff.mpr fun e he => seProj_none_of_not_mentions (h e he)

theorem ensureProcess_shape (s : BridgeState) :
    (ensureProcess s).1.pending = s.pending ∧
    (ensureProcess s).1.nextReq = s.nextReq ∧
    (ensureProcess s).1.initWait = s.initWait ∧
    (ensureProcess s).1.shutdownWait = s.shutdownWait := by
  cases h : s.child <;> simp [ensureProcess, h]

theorem mentions_ensureProcess (id : Nat) (s : BridgeState) :
    ∀ e ∈ (ensureProcess s).2.1, mentions id e = false := by
  cases h : s.child <;> simp [ensureProcess, h, mentions]

theorem callWithStream_shape (s : BridgeState) (a : String) :
    (callWithStream s a).1.pending = s.pending ++ [s.nextReq] ∧
    (callWithStream s a).1.nextReq = s.nextReq + 1 ∧
    (callWithStream s a).1.initWait = s.initWait ∧
    (callWithStream s a).1.shutdownWait = s.shutdownWait ∧
    (callWithStream s a).2.2 = s.nextReq := by
  cases h : s.child <;> simp [callWithStream, ensureProcess, h]

theorem seTrace_callWithStream (id : Nat) (s : BridgeState) (a : String) :
    seTrace id (callWithStream s a).2.1 = [] := by
  cases h : s.child <;>
    simp [callWithStream, ensureProcess, h, seTrace, seProj]

theorem mentions_callWithStream {id : Nat} (s : BridgeState) (a : String)
    (hne : id ≠ s.nextReq) :
    ∀ e ∈ (callWithStream s a).2.1, mentions id e = false := by
  cases h : s.child <;>
    simp [callWithStream, ensureProcess, h, mentions] <;> omega

theorem callWithStream_wf {s : BridgeState} {a : String} (hwf : WF s) :
    WF (callWithStream s a).1 := by
  obtain ⟨hb, hn, hiw, hsw⟩ := hwf
  obtain ⟨hp, hr, hiw2, hsw2, _⟩ := callWithStream_shape s a
  refine ⟨?_, ?_, ?_, ?_⟩
  · intro j hj
    rw [hr]
    rw [hp] at hj
    rcases List.mem_append.mp hj with h | h
    · exact Nat.lt_succ_of_lt (hb j h)
    · rw [List.mem_singleton] at h
      omega
  · rw [hp, List.nodup_append]
    refine ⟨hn, List.nodup_singleton _, ?_⟩
    rw [List.disjoint_singleton]
    intro hc
    exact absurd (hb _ hc) (lt_irrefl _)
  · intro i hi
    rw [hr]
    rw [hiw2] at hi
    exact Nat.lt_succ_of_lt (hiw i hi)
  · intro i hi
    rw [hr]
    rw [hsw2] at hi
    exact Nat.lt_succ_of_lt (hsw i hi)

theorem erase_wf {s : BridgeState} (hwf : WF s) (id : Nat) :
    WF { s with pending := s.pending.erase id } := by
  obtain ⟨hb, hn, hiw, hsw⟩ := hwf
  refine ⟨?_, hn.erase id, hiw, hsw⟩
  intro j hj
  exact hb j (List.erase_subset id s.pending hj)

theorem dispose_wf (s : BridgeState) : WF (dispose s).1 := by
  refine ⟨?_, ?_, ?_, ?_⟩ <;> simp [dispose]

/-! ### The settle-and-remove pattern shared by `handleLine` and the
cancel closure -/

theorem settle_pattern_wf {s : BridgeState} (hwf : WF s) (rid : Nat)
    (rp : Option (Option WireVal)) :
    WF (settleCont { s with pending := s.pending.erase rid } rid rp).1 ∧
    (settleCont { s with pending := s.pending.erase rid } rid rp).1.nextReq
      = s.nextReq :=
  ⟨settleCont_wf (erase_wf hwf rid), settleCont_nextReq _ _ _⟩

theorem settle_pattern_seTrace {s : BridgeState} (hwf : WF s) {rid : Nat}
    (hmem : rid ∈ s.pending) (rp : Option (Option WireVal)) (id : Nat)
    (base : List BridgeEff)
    (hbase : seTrace id base = if rid = id then [true, false] else []) :
    seTrace id (base ++
        (settleCont { s with pending := s.pending.erase rid } rid rp).2)
      = [] ∨
    (seTrace id (base ++
        (settleCont { s with pending := s.pending.erase rid } rid rp).2)
      = [true, false] ∧
     id ∉ (settleCont { s with pending := s.pending.erase rid } rid rp).1.pending
      ∧ id ∈ s.pending) := by
  obtain ⟨hb, hn, _, _⟩ := hwf
  have hn₁ : ({ s with pending := s.pending.erase rid }
      : BridgeState).pending.Nodup := hn.erase rid
  rw [seTrace_append, hbase]
  by_cases hid : rid = id
  · subst hid
    have hnm : rid ∉ ({ s with pending := s.pending.erase rid }
        : BridgeState).pending := hn.not_mem_erase
    have htr : seTrace rid
        (settleCont { s with pending := s.pending.erase rid } rid rp).2 = [] :=
      seTrace_eq_nil (mentions_settleCont hnm)
    right
    refine ⟨by rw [if_pos rfl, htr, List.append_nil], ?_, hmem⟩
    intro hc
    exact hnm (settleCont_pending_sub _ _ _ hc)
  · rw [if_neg hid, List.nil_append]
    rcases @seTrace_settleCont_cases id _ rid rp hn₁
      with h | ⟨htr, hidm, hpend⟩
    · left
      exact h
    · right
      refine ⟨htr, ?_, List.erase_subset rid s.pending hidm⟩
      rw [hpend]
      exact List.not_mem_nil id

theorem settle_pattern_stale {s : BridgeState} {id : Nat}
    (hnp : id ∉ s.pending) {rid : Nat}
    (rp : Option (Option WireVal)) (base : List BridgeEff)
    (hbase : ∀ e ∈ base, mentions id e = false) :
    (∀ e ∈ base ++
        (settleCont { s with pending := s.pending.erase rid } rid rp).2,
      mentions id e = false) ∧
    id ∉ (settleCont { s with pending := s.pending.erase rid } rid rp).1.pending
    := by
  have hnp₁ : id ∉ ({ s with pending := s.pending.erase rid }
      : BridgeState).pending :=
    fun hc => hnp (List.erase_subset rid s.pending hc)
  constructor
  · intro e he
    rcases List.mem_append.mp he with h | h
    · exact hbase e h
    · exact mentions_settleCont hnp₁ e h
  · intro hc
    exact hnp₁ (settleCont_pending_sub _ _ _ hc)

/-! ### Per-command invariants -/

theorem handleLine_wf {s : BridgeState} (hwf : WF s)
    (m : Option SidecarMessage) :
    WF (handleLine s m).1 ∧ (handleLine s m).1.nextReq = s.nextReq := by
  cases m with
  | none => exact ⟨hwf, rfl⟩
  | some msg =>
    simp only [handleLine]
    split_ifs with h₁ h₂ h₃
    · cases hr : msg.requestId with
      | none => exact ⟨hwf, rfl⟩
      | some rid =>
        by_cases hm : rid ∈ s.pending
        · simp only [hm, if_true]
          exact ⟨hwf, trivial⟩
        · simp only [hm, if_false]
          exact ⟨hwf, trivial⟩
    · cases hr : msg.requestId with
      | none => exact ⟨hwf, rfl⟩
      | some rid =>
        by_cases hm : rid ∈ s.pending
        · simp only [hm, if_true]
          exact settle_pattern_wf hwf rid (some msg.payload)
        · simp only [hm, if_false]
          exact ⟨hwf, trivial⟩
    · cases hr : msg.requestId with
      | none => exact ⟨hwf, rfl⟩
      | some rid =>
        by_cases hm : rid ∈ s.pending
        · simp only [hm, if_true]
          exact settle_pattern_wf hwf rid none
        · simp only [hm, if_false]
          exact ⟨hwf, trivial⟩
    · exact ⟨hwf, rfl⟩

theorem handleLine_stale {s : BridgeState} {id : Nat}
    (hnp : id ∉ s.pending) (m : Option SidecarMessage) :
    (∀ e ∈ (handleLine s m).2, mentions id e = false) ∧
    id ∉ (handleLine s m).1.pending := by
  cases m with
  | none => exact ⟨fun e he => absurd he (List.not_mem_nil e), hnp⟩
  | some msg =>
    simp only [handleLine]
    split_ifs with h₁ h₂ h₃
    · cases hr : msg.requestId with
      | none => exact ⟨fun e he => absurd he (List.not_mem_nil e), hnp⟩
      | some rid =>
        by_cases hm : rid ∈ s.pending
        · simp only [hm, if_true]
          have : rid ≠ id := fun hc => hnp (hc ▸ hm)
          refine ⟨?_, hnp⟩
          intro e he
          rw [List.mem_singleton] at he
          subst he
          simp [mentions, this]
        · simp only [hm, if_false]
          exact ⟨fun e he => absurd he (List.not_mem_nil e), hnp⟩
    · cases hr : msg.requestId with
      | none => exact ⟨fun e he => absurd he (List.not_mem_nil e), hnp⟩
      | some rid =>
        by_cases hm : rid ∈ s.pending
        · simp only [hm, if_true]
          have hne : rid ≠ id := fun hc => hnp (hc ▸ hm)
          exact settle_pattern_stale hnp (some msg.payload) _
            (mentions_settleResolveEffs hne)
        · simp only [hm, if_false]
          exact ⟨fun e he => absurd he (List.not_mem_nil e), hnp⟩
    · cases hr : msg.requestId with
      | none => exact ⟨fun e he => absurd he (List.not_mem_nil e), hnp⟩
      | some rid =>
        by_cases hm : rid ∈ s.pending
        · simp only [hm, if_true]
          have hne : rid ≠ id := fun hc => hnp (hc ▸ hm)
          exact settle_pattern_stale hnp none _
            (mentions_settleRejectEffs hne)
        · simp only [hm, if_false]
          exact ⟨fun e he => absurd he (List.not_mem_nil e), hnp⟩
    · exact ⟨fun e he => absurd he (List.not_mem_nil e), hnp⟩

theorem handleLine_seTrace {s : BridgeState} {id : Nat} (hwf : WF s)
    (m : Option SidecarMessage) :
    seTrace id (handleLine s m).2 = [] ∨
    (seTrace id (handleLine s m).2 = [true, false] ∧
      id ∉ (handleLine s m).1.pending ∧ id ∈ s.pending) := by
  cases m with
  | none => exact .inl rfl
  | some msg =>
    simp only [handleLine]
    split_ifs with h₁ h₂ h₃
    · cases hr : msg.requestId with
      | none => exact .inl rfl
      | some rid =>
        by_cases hm : rid ∈ s.pending
        · simp only [hm, if_true]
          left
          by_cases hid : rid = id <;>
            simp [seTrace, seProj, hid]
        · simp only [hm, if_false]
          exact .inl rfl
    · cases hr : msg.requestId with
      | none => exact .inl rfl
      | some rid =>
        by_cases hm : rid ∈ s.pending
        · simp only [hm, if_true]
          exact settle_pattern_seTrace hwf hm (some msg.payload) id _
            (seTrace_settleResolveEffs id rid msg.payload)
        · simp only [hm, if_false]
          exact .inl rfl
    · cases hr : msg.requestId with
      | none => exact .inl rfl
      | some rid =>
        by_cases hm : rid ∈ s.pending
        · simp only [hm, if_true]
          exact settle_pattern_seTrace hwf hm none id _
            (seTrace_settleRejectEffs id rid _)
        · simp only [hm, if_false]
          exact .inl rfl
    · exact .inl rfl

theorem cancelCall_wf {s : BridgeState} (hwf : WF s) (rid : Nat) :
    WF (cancelCall s rid).1 ∧ (cancelCall s rid).1.nextReq = s.nextReq := by
  simp only [cancelCall]
  split_ifs with hm
  · exact settle_pattern_wf hwf rid none
  · exact ⟨hwf, rfl⟩

theorem cancelCall_stale {s : BridgeState} {id : Nat}
    (hnp : id ∉ s.pending) (rid : Nat) :
    (∀ e ∈ (cancelCall s rid).2, mentions id e = false) ∧
    id ∉ (cancelCall s rid).1.pending := by
  simp only [cancelCall]
  split_ifs with hm
  · have hne : rid ≠ id := fun hc => hnp (hc ▸ hm)
    exact settle_pattern_stale hnp none _ (mentions_settleRejectEffs hne)
  · exact ⟨fun e he => absurd he (List.not_mem_nil e), hnp⟩

theorem cancelCall_seTrace {s : BridgeState} {id : Nat} (hwf : WF s)
    (rid : Nat) :
    seTrace id (cancelCall s rid).2 = [] ∨
    (seTrace id (cancelCall s rid).2 = [true, false] ∧
      id ∉ (cancelCall s rid).1.pending ∧ id ∈ s.pending) := by
  simp only [cancelCall]
  split_ifs with hm
  · exact settle_pattern_seTrace hwf hm none id _
      (seTrace_settleRejectEffs id rid _)
  · exact .inl rfl

theorem onExit_wf {s : BridgeState} (hwf : WF s) (code : Option Int)
    (signal : Option String) :
    WF (onExit s code signal).1 ∧
    (onExit s code signal).1.nextReq = s.nextReq := by
  obtain ⟨hb, hn, hiw, hsw⟩ := hwf
  simp only [onExit]
  split_ifs with h₁ h₂ h₃
  · refine ⟨⟨?_, ?_, ?_, ?_⟩, ?_⟩ <;> simp [dispose]
  · refine ⟨⟨?_, ?_, ?_, ?_⟩, ?_⟩ <;> simp [dispose]
  · refine ⟨⟨?_, ?_, ?_, hsw⟩, rfl⟩ <;> simp
  · exact ⟨⟨by simp, by simp, hiw, hsw⟩, rfl⟩

theorem onExit_stale {s : BridgeState} {id : Nat} (hnp : id ∉ s.pending)
    (code : Option Int) (signal : Option String) :
    (∀ e ∈ (onExit s code signal).2, mentions id e = false) ∧
    id ∉ (onExit s code signal).1.pending := by
  have hdis : ∀ t : BridgeState, t.pending = [] →
      (∀ e ∈ (dispose t).2, mentions id e = false) := by
    intro t ht
    exact mentions_dispose (by rw [ht]; exact List.not_mem_nil id)
  simp only [onExit]
  split_ifs with h₁ h₂ h₃
  · refine ⟨?_, by simp [dispose]⟩
    intro e he
    rcases List.mem_append.mp he with h | h
    · exact mentions_rejectAll hnp e h
    · exact hdis _ rfl e h
  · refine ⟨?_, by simp [dispose]⟩
    intro e he
    rcases List.mem_append.mp he with h | h
    · exact mentions_rejectAll hnp e h
    · exact hdis _ rfl e h
  · exact ⟨mentions_rejectAll hnp, by simp⟩
  · exact ⟨mentions_rejectAll hnp, by simp⟩

theorem onExit_seTrace {s : BridgeState} {id : Nat} (hwf : WF s)
    (code : Option Int) (signal : Option String) :
    seTrace id (onExit s code signal).2 = [] ∨
    (seTrace id (onExit s code signal).2 = [true, false] ∧
      id ∉ (onExit s code signal).1.pending ∧ id ∈ s.pending) := by
  obtain ⟨hb, hn, hiw, hsw⟩ := hwf
  have hdis : ∀ t : BridgeState, t.pending = [] →
      seTrace id (dispose t).2 = [] := by
    intro t ht
    exact seTrace_eq_nil
      (mentions_dispose (by rw [ht]; exact List.not_mem_nil id))
  by_cases hm : id ∈ s.pending
  · right
    simp only [onExit]
    split_ifs with h₁ h₂ h₃
    · refine ⟨?_, by simp [dispose], hm⟩
      rw [seTrace_append, seTrace_rejectAll_mem hn hm, hdis _ rfl,
        List.append_nil]
    · refine ⟨?_, by simp [dispose], hm⟩
      rw [seTrace_append, seTrace_rejectAll_mem hn hm, hdis _ rfl,
        List.append_nil]
    · exact ⟨seTrace_rejectAll_mem hn hm, by simp, hm⟩
    · exact ⟨seTrace_rejectAll_mem hn hm, by simp, hm⟩
  · left
    simp only [onExit]
    split_ifs with h₁ h₂ h₃
    · rw [seTrace_append, seTrace_rejectAll_not_mem hm, hdis _ rfl,
        List.append_nil]
    · rw [seTrace_append, seTrace_rejectAll_not_mem hm, hdis _ rfl,
        List.append_nil]
    · exact seTrace_rejectAll_not_mem hm
    · exact seTrace_rejectAll_not_mem hm

theorem ensureInitialised_wf {s : BridgeState} (hwf : WF s)
    (key : Option String) :
    WF (ensureInitialised s key).1 ∧
    s.nextReq ≤ (ensureInitialised s key).1.nextReq := by
  simp only [ensureInitialised]
  split_ifs with h₁
  · exact ⟨hwf, le_refl _⟩
  · cases key with
    | none => exact ⟨hwf, le_refl _⟩
    | some k =>
      simp only []
      split_ifs with h₃
      · exact ⟨hwf, le_refl _⟩
      · obtain ⟨hbw, hnw, hiww, hsww⟩ := callWithStream_wf (a := "initialize")
          hwf
        obtain ⟨hp, hr, hiw2, hsw2, hid⟩ := callWithStream_shape s "initialize"
        refine ⟨⟨hbw, hnw, ?_, hsww⟩, ?_⟩
        · intro i hi
          simp only [hid] at hi
          rw [Option.some_inj] at hi
          rw [hr, ← hi]
          omega
        · rw [hr]
          omega

theorem ensureInitialised_effs {s : BridgeState} (key : Option String) :
    (ensureInitialised s key).2.1 = [] ∨
    (ensureInitialised s key).2.1 = (callWithStream s "initialize").2.1 := by
  simp only [ensureInitialised]
  split_ifs with h₁
  · exact .inl rfl
  · cases key with
    | none => exact .inl rfl
    | some k =>
      simp only []
      split_ifs with h₃
      · exact .inl rfl
      · exact .inr rfl

theorem ensureInitialised_pending {s : BridgeState} (key : Option String) :
    (ensureInitialised s key).1.pending = s.pending ∨
    (ensureInitialised s key).1.pending = s.pending ++ [s.nextReq] := by
  simp only [ensureInitialised]
  split_ifs with h₁
  · exact .inl rfl
  · cases key with
    | none => exact .inl rfl
    | some k =>
      simp only []
      split_ifs with h₃
      · exact .inl rfl
      · exact .inr (callWithStream_shape s "initialize").1

theorem shutdownBegin_wf {s : BridgeState} (hwf : WF s) :
    WF (GrokSidecar.shutdownBegin s).1 ∧
    s.nextReq ≤ (GrokSidecar.shutdownBegin s).1.nextReq := by
  obtain ⟨hbw, hnw, hiww, hsww⟩ := callWithStream_wf (a := "shutdown") hwf
  obtain ⟨hp, hr, hiw2, hsw2, hid⟩ := callWithStream_shape s "shutdown"
  refine ⟨⟨?_, ?_, ?_, ?_⟩, ?_⟩
  · show ∀ j ∈ (callWithStream s "shutdown").1.pending,
      j < (callWithStream s "shutdown").1.nextReq
    exact hbw
  · show (callWithStream s "shutdown").1.pending.Nodup
    exact hnw
  · show ∀ i, (callWithStream s "shutdown").1.initWait = some i →
      i < (callWithStream s "shutdown").1.nextReq
    exact hiww
  · show ∀ i, (some (callWithStream s "shutdown").2.2 : Option Nat) = some i →
      i < (callWithStream s "shutdown").1.nextReq
    intro i hi
    rw [Option.some_inj] at hi
    rw [hr, ← hi, hid]
    omega
  · show s.nextReq ≤ (callWithStream s "shutdown").1.nextReq
    rw [hr]
    omega

theorem shutdownBegin_effs (s : BridgeState) :
    (GrokSidecar.shutdownBegin s).2 = (callWithStream s "shutdown").2.1 := rfl

theorem shutdownBegin_pending (s : BridgeState) :
    (GrokSidecar.shutdownBegin s).1.pending = s.pending ++ [s.nextReq] :=
  (callWithStream_shape s "shutdown").1

/-! ### Step-level invariants -/

theorem step_call_state (s : BridgeState) (a : String) :
    (step s (.call a)).1 = (callWithStream s a).1 := rfl

theorem step_call_effs (s : BridgeState) (a : String) :
    (step s (.call a)).2 = (callWithStream s a).2.1 := rfl

theorem step_init_state (s : BridgeState) (key : Option String) :
    (step s (.initBegin key)).1 = (ensureInitialised s key).1 := rfl

theorem step_init_effs (s : BridgeState) (key : Option String) :
    (step s (.initBegin key)).2 = (ensureInitialised s key).2.1 := rfl

theorem step_cancel_eq (s : BridgeState) (rid : Nat) :
    step s (.cancel rid) = cancelCall s rid := rfl

theorem step_line_eq (s : BridgeState) (m : Option SidecarMessage) :
    step s (.line m) = handleLine s m := rfl

theorem step_exit_eq (s : BridgeState) (code : Option Int)
    (signal : Option String) :
    step s (.exit code signal) = onExit s code signal := rfl

theorem step_shutdown_eq (s : BridgeState) :
    step s .shutdownBegin = GrokSidecar.shutdownBegin s := rfl

theorem step_dispose_eq (s : BridgeState) :
    step s .disposeCmd = dispose s := rfl

/-- `step` preserves well-formedness and never decreases the freshness
counter. -/
theorem step_wf_mono {s : BridgeState} (hwf : WF s) (c : Cmd) :
    WF (step s c).1 ∧ s.nextReq ≤ (step s c).1.nextReq := by
  cases c with
  | call a =>
    rw [step_call_state]
    refine ⟨callWithStream_wf (a := a) hwf, ?_⟩
    rw [(callWithStream_shape s a).2.1]
    omega
  | cancel rid =>
    rw [step_cancel_eq]
    have := cancelCall_wf hwf rid
    exact ⟨this.1, by rw [this.2]⟩
  | line m =>
    rw [step_line_eq]
    have := handleLine_wf hwf m
    exact ⟨this.1, by rw [this.2]⟩
  | exit code signal =>
    rw [step_exit_eq]
    have := onExit_wf hwf code signal
    exact ⟨this.1, by rw [this.2]⟩
  | initBegin key =>
    rw [step_init_state]
    exact ensureInitialised_wf hwf key
  | shutdownBegin =>
    rw [step_shutdown_eq]
    exact shutdownBegin_wf hwf
  | disposeCmd =>
    rw [step_dispose_eq]
    exact ⟨dispose_wf s, le_refl _⟩

/-- A correlation id that is not pending and already below the freshness
counter is never mentioned by any effect of a step, and stays out of the
pending list. -/
theorem step_stale {s : BridgeState} {id : Nat} (hwf : WF s)
    (hnp : id ∉ s.pending) (hlt : id < s.nextReq) (c : Cmd) :
    (∀ e ∈ (step s c).2, mentions id e = false) ∧
    id ∉ (step s c).1.pending := by
  obtain ⟨hb, hn, hiw, hsw⟩ := hwf
  cases c with
  | call a =>
    rw [step_call_effs, step_call_state]
    refine ⟨mentions_callWithStream s a (by omega), ?_⟩
    rw [(callWithStream_shape s a).1]
    intro hc
    rcases List.mem_append.mp hc with h | h
    · exact hnp h
    · rw [List.mem_singleton] at h
      omega
  | cancel rid =>
    rw [step_cancel_eq]
    exact cancelCall_stale hnp rid
  | line m =>
    rw [step_line_eq]
    exact handleLine_stale hnp m
  | exit code signal =>
    rw [step_exit_eq]
    exact onExit_stale hnp code signal
  | initBegin key =>
    rw [step_init_effs, step_init_state]
    constructor
    · rcases ensureInitialised_effs (s := s) key with h | h <;> rw [h]
      · exact fun e he => absurd he (List.not_mem_nil e)
      · exact mentions_callWithStream s "initialize" (by omega)
    · rcases ensureInitialised_pending (s := s) key with h | h <;> rw [h]
      · exact hnp
      · intro hc
        rcases List.mem_append.mp hc with h₂ | h₂
        · exact hnp h₂
        · rw [List.mem_singleton] at h₂
          omega
  | shutdownBegin =>
    rw [step_shutdown_eq]
    constructor
    · rw [shutdownBegin_effs]
      exact mentions_callWithStream s "shutdown" (by omega)
    · rw [shutdownBegin_pending]
      intro hc
      rcases List.mem_append.mp hc with h₂ | h₂
      · exact hnp h₂
      · rw [List.mem_singleton] at h₂
        omega
  | disposeCmd =>
    rw [step_dispose_eq]
    exact ⟨mentions_dispose hnp, by simp [dispose]⟩

/-- Any step either leaves the settle/end trace of an id empty, or
settles that id exactly once and ends its stream exactly once, in that
order — and then the id is no longer pending (and was pending before). -/
theorem step_seTrace {s : BridgeState} {id : Nat} (hwf : WF s) (c : Cmd) :
    seTrace id (step s c).2 = [] ∨
    (seTrace id (step s c).2 = [true, false] ∧
      id ∉ (step s c).1.pending ∧ id ∈ s.pending) := by
  obtain ⟨hb, hn, hiw, hsw⟩ := hwf
  cases c with
  | call a =>
    rw [step_call_effs]
    exact .inl (seTrace_callWithStream id s a)
  | cancel rid =>
    rw [step_cancel_eq]
    exact cancelCall_seTrace ⟨hb, hn, hiw, hsw⟩ rid
  | line m =>
    rw [step_line_eq]
    exact handleLine_seTrace ⟨hb, hn, hiw, hsw⟩ m
  | exit code signal =>
    rw [step_exit_eq]
    exact onExit_seTrace ⟨hb, hn, hiw, hsw⟩ code signal
  | initBegin key =>
    rw [step_init_effs]
    left
    rcases ensureInitialised_effs (s := s) key with h | h <;> rw [h]
    · rfl
    · exact seTrace_callWithStream id s "initialize"
  | shutdownBegin =>
    rw [step_shutdown_eq, shutdownBegin_effs]
    exact .inl (seTrace_callWithStream id s "shutdown")
  | disposeCmd =>
    rw [step_dispose_eq]
    by_cases hm : id ∈ s.pending
    · right
      rw [seTrace_dispose hn]
      exact ⟨by simp [hm], by simp [dispose], hm⟩
    · left
      rw [seTrace_dispose hn]
      simp [hm]

/-! ### Run-level invariants -/

/-- A stale correlation id (not pending, below the counter) is never
mentioned by any effect of any later run, and never becomes pending
again. -/
theorem run_stale {id : Nat} :
    ∀ (cmds : List Cmd) (s : BridgeState), WF s → id ∉ s.pending →
      id < s.nextReq →
      (∀ e ∈ (run s cmds).2, mentions id e = false) ∧
      id ∉ (run s cmds).1.pending := by
  intro cmds
  induction cmds with
  | nil =>
    intro s hwf hnp hlt
    exact ⟨fun e he => absurd he (List.not_mem_nil e), hnp⟩
  | cons c cs ih =>
    intro s hwf hnp hlt
    have h₁ := step_stale hwf hnp hlt c
    have h₂ := step_wf_mono hwf c
    have h₃ := ih (step s c).1 h₂.1 h₁.2 (lt_of_lt_of_le hlt h₂.2)
    constructor
    · intro e he
      simp only [run] at he
      rcases List.mem_append.mp he with h | h
      · exact h₁.1 e h
      · exact h₃.1 e h
    · simp only [run]
      exact h₃.2

/-- The settle/end trace of any run for any correlation id is either
empty (the call never settled: no end emitted) or exactly one settlement
followed by exactly one end-of-stream emission. -/
theorem run_seTrace {id : Nat} :
    ∀ (cmds : List Cmd) (s : BridgeState), WF s →
      seTrace id (run s cmds).2 = [] ∨
      seTrace id (run s cmds).2 = [true, false] := by
  intro cmds
  induction cmds with
  | nil => exact fun s _ => .inl rfl
  | cons c cs ih =>
    intro s hwf
    have hmono := (step_wf_mono hwf c).2
    have hwf₁ := (step_wf_mono hwf c).1
    have happ : seTrace id (run s (c :: cs)).2 =
        seTrace id (step s c).2 ++ seTrace id (run (step s c).1 cs).2 := by
      simp only [run]
      exact seTrace_append id _ _
    rcases step_seTrace hwf c with h | ⟨h, hnp, hmem⟩
    · rcases ih (step s c).1 hwf₁ with h' | h' <;> rw [happ, h, h']
      · exact .inl rfl
      · exact .inr rfl
    · have hlt : id < (step s c).1.nextReq :=
        lt_of_lt_of_le (hwf.1 id hmem) hmono
      have hrest := (run_stale cs (step s c).1 hwf₁ hnp hlt).1
      rw [happ, h, seTrace_eq_nil hrest]
      exact .inr rfl

/-- The start state is well-formed. -/
theorem initState_wf : WF initState :=
  ⟨by simp [initState], by simp [initState], by simp [initState],
   by simp [initState]⟩

/-- The exit handler resets the map, handle and flag. -/
theorem onExit_state_reset (s : BridgeState) (code : Option Int)
    (signal : Option String) :
    (onExit s code signal).1.pending = [] ∧
    (onExit s code signal).1.child = none ∧
    (onExit s code signal).1.initialized = false := by
  simp only [onExit]
  split_ifs with h₁ h₂ h₃ <;> refine ⟨?_, ?_, ?_⟩ <;> simp [dispose]

/-- The exit handler rejects each pending correlation with the exit
reason. -/
theorem onExit_rejects {s : BridgeState} {id : Nat} (h : id ∈ s.pending)
    (code : Option Int) (signal : Option String) :
    BridgeEff.rejectedP id (exitReason code signal)
      ∈ (onExit s code signal).2 := by
  simp only [onExit]
  split_ifs with h₁ h₂ h₃
  · exact List.mem_append.mpr (.inl (rejectedP_mem_rejectAll h))
  · exact List.mem_append.mpr (.inl (rejectedP_mem_rejectAll h))
  · exact rejectedP_mem_rejectAll h
  · exact rejectedP_mem_rejectAll h

/-- A call made while no child is running spawns a fresh generation. -/
theorem call_spawns_of_no_child {s : BridgeState} (h : s.child = none)
    (a : String) :
    BridgeEff.spawned (s.procCount + 1) ∈ (step s (.call a)).2 := by
  rw [step_call_effs]
  simp [callWithStream, ensureProcess, h]

/-- On an uninitialized client, `ensureInitialised` with a usable key
sends the handshake request under the next fresh correlation id. -/
theorem ensureInitialised_sends_of_uninit {s : BridgeState}
    (h : s.initialized = false) {key : String} (hk : key ≠ "") :
    (ensureInitialised s (some key)).2.2 = .requestSent s.nextReq := by
  simp only [ensureInitialised, h]
  simp only [Bool.false_eq_true, if_false]
  rw [if_neg hk]
  exact congrArg InitOutcome.requestSent
    (callWithStream_shape s "initialize").2.2.2.2

/-- `handleLine` on a terminal `result` line for a pending id: remove the
entry, resolve, run the finalize wiring and the awaiting
continuations. -/
theorem handleLine_result_eq {s : BridgeState} {id : Nat}
    (hmem : id ∈ s.pending) (p : Option WireVal) (em : Option String) :
    handleLine s (some ⟨"result", some id, p, em⟩) =
      ((settleCont { s with pending := s.pending.erase id } id (some p)).1,
       settleResolveEffs id p ++
         (settleCont { s with pending := s.pending.erase id } id
           (some p)).2) := by
  simp [handleLine, hmem]

/-- No shutdown is awaiting this id: the settle continuation only runs
the `ensureInitialised` resumption. -/
theorem settleCont_no_dispose {s : BridgeState} {id : Nat}
    (rp : Option (Option WireVal)) (h : s.shutdownWait ≠ some id) :
    settleCont s id rp = (settleContInit s id rp, []) := by
  have h₂ : (settleContInit s id rp).shutdownWait ≠ some id := by
    rw [(settleContInit_shape s id rp).2.2.2.2.1]
    exact h
  simp only [settleCont, if_neg h₂]

/-- A shutdown is awaiting this id: the settle continuation runs
dispose. -/
theorem settleCont_dispose_eq {s : BridgeState} {id : Nat}
    (rp : Option (Option WireVal)) (h : s.shutdownWait = some id) :
    settleCont s id rp =
      dispose { settleContInit s id rp with shutdownWait := none } := by
  have h₂ : (settleContInit s id rp).shutdownWait = some id := by
    rw [(settleContInit_shape s id rp).2.2.2.2.1]
    exact h
  simp only [settleCont, if_pos h₂]

/-- When `ensureInitialised` awaits this id and the result payload is a
truthy object, the resumption records initialization. -/
theorem settleContInit_sets_initialized {s : BridgeState} {id : Nat}
    (h : s.initWait = some id) :
    settleContInit s id (some (some .objVal)) =
      { s with initWait := none, initialized := true } := by
  simp [settleContInit, h]

theorem settleContInit_wf {s : BridgeState} {id : Nat}
    {rp : Option (Option WireVal)} (hwf : WF s) :
    WF (settleContInit s id rp) := by
  obtain ⟨hb, hn, hiw, hsw⟩ := hwf
  obtain ⟨hp, hr, hc, hpc, hsw2, hiw2⟩ := settleContInit_shape s id rp
  refine ⟨?_, ?_, ?_, ?_⟩
  · intro j hj
    rw [hr]
    exact hb j (hp ▸ hj)
  · rw [hp]
    exact hn
  · intro i hi
    rw [hr]
    rcases hiw2 with h | h
    · rw [h] at hi
      cases hi
    · exact hiw i (h ▸ hi)
  · intro i hi
    rw [hr]
    exact hsw i (hsw2 ▸ hi)

theorem callWithStream_initialized (s : BridgeState) (a : String) :
    (callWithStream s a).1.initialized = s.initialized := by
  cases h : s.child <;> simp [callWithStream, ensureProcess, h]

/-- The state `ensureInitialised` leaves while awaiting the handshake. -/
theorem ensureInitialised_state_of_uninit {s : BridgeState}
    (h : s.initialized = false) {key : String} (hk : key ≠ "") :
    (ensureInitialised s (some key)).1 =
      { (callWithStream s "initialize").1 with
          initWait := some s.nextReq } := by
  simp only [ensureInitialised, h]
  simp only [Bool.false_eq_true, if_false]
  rw [if_neg hk]
  rw [(callWithStream_shape s "initialize").2.2.2.2]

/-- On an initialized client, `ensureInitialised` is a pure no-op: no
state change, no effects, immediate resolution. -/
theorem ensureInitialised_noop {s : BridgeState} (h : s.initialized = true)
    (key : Option String) :
    ensureInitialised s key = (s, [], .alreadyInitialized) := by
  simp [ensureInitialised, h]

/-- `shutdown` writes the graceful-termination request. -/
theorem shutdownBegin_writes (s : BridgeState) :
    ∃ g, BridgeEff.wrote g s.nextReq "shutdown"
      ∈ (GrokSidecar.shutdownBegin s).2 := by
  cases h : s.child with
  | some g =>
    exact ⟨g, by simp [GrokSidecar.shutdownBegin, callWithStream,
      ensureProcess, h]⟩
  | none =>
    exact ⟨s.procCount + 1, by simp [GrokSidecar.shutdownBegin,
      callWithStream, ensureProcess, h]⟩

/-- `shutdown` awaits the correlation of the request it just wrote. -/
theorem shutdownBegin_wait (s : BridgeState) :
    (GrokSidecar.shutdownBegin s).1.shutdownWait = some s.nextReq := by
  show some (callWithStream s "shutdown").2.2 = some s.nextReq
  rw [(callWithStream_shape s "shutdown").2.2.2.2]

/-- Dispose rejects every pending correlation. -/
theorem mem_dispose_reject {t : BridgeState} {j : Nat} (hj : j ∈ t.pending) :
    BridgeEff.rejectedP j .processTerminated ∈ (dispose t).2 := by
  rw [show (dispose t).2 = (match t.child with
      | some g => [BridgeEff.killedChild g]
      | none => []) ++
      t.pending.flatMap (fun x => settleRejectEffs x .processTerminated)
    from rfl]
  exact List.mem_append.mpr (.inr (rejectedP_mem_rejectAll hj))

/-- Dispose kills a live child. -/
theorem mem_dispose_kill {t : BridgeState} {g : Nat} (hg : t.child = some g) :
    BridgeEff.killedChild g ∈ (dispose t).2 := by
  rw [show (dispose t).2 = (match t.child with
      | some gg => [BridgeEff.killedChild gg]
      | none => []) ++
      t.pending.flatMap (fun x => settleRejectEffs x .processTerminated)
    from rfl, hg]
  exact List.mem_append.mpr (.inl (List.mem_singleton.mpr rfl))

end GrokSidecar

/-! ## C5: end-of-stream emitted exactly once, after settlement -/

/-- C5: for every run of the bridge from a well-formed state and every
correlation id, the projection of the effect sequence onto that id's
settlement (`true` = its result promise settles, by resolve or reject)
and end-of-stream emission (`false` = its emitter emits `end`) is either
empty — the call has not settled, and no `end` was emitted — or exactly
`[settle, end]`: the promise settles exactly once, `end` is emitted
exactly once, and only after the settlement.  This covers terminal
results, in-band errors, cancellation and process exit uniformly. -/
theorem claim_C5_end_exactly_once_after_settle :
    ∀ (s : BridgeState) (cmds : List Cmd) (id : Nat), WF s →
      seTrace id (run s cmds).2 = [] ∨
      seTrace id (run s cmds).2 = [true, false] := by
  intro s cmds id hwf
  exact run_seTrace cmds s hwf

/-- C5 witness: a chat call answered by a terminal result. -/
theorem claim_C5_witness :
    seTrace 0 (run initState [Cmd.call "chat",
      Cmd.line (some ⟨"result", some 0, some .objVal, none⟩)]).2 = [] ∨
    seTrace 0 (run initState [Cmd.call "chat",
      Cmd.line (some ⟨"result", some 0, some .objVal, none⟩)]).2 =
      [true, false] :=
  claim_C5_end_exactly_once_after_settle initState
    [Cmd.call "chat", Cmd.line (some ⟨"result", some 0, some .objVal, none⟩)]
    0 initState_wf

/-! ## C1: worker exit rejects pending calls and resets the bridge -/

/-- C1: when the worker process exits, every pending correlation's
promise is rejected with the process-terminated error tagged with the
exit code or signal, the correlation map is emptied, the bridge resets to
the uninitialized state (no child, flag cleared), the ids pending at exit
are never mentioned again by any effect of any later run (no later
response line matches them, no new call reuses them), a subsequent call
spawns a fresh generation, and `ensureInitialised` performs a fresh
handshake. -/
theorem claim_C1_exit_rejects_and_resets :
    ∀ (s : BridgeState) (code : Option Int) (signal : Option String),
      WF s →
      (∀ id ∈ s.pending,
        BridgeEff.rejectedP id (exitReason code signal)
          ∈ (step s (.exit code signal)).2) ∧
      (step s (.exit code signal)).1.pending = [] ∧
      (step s (.exit code signal)).1.child = none ∧
      (step s (.exit code signal)).1.initialized = false ∧
      (∀ id ∈ s.pending, ∀ (cmds : List Cmd),
        ∀ e ∈ (run (step s (.exit code signal)).1 cmds).2,
          mentions id e = false) ∧
      (∀ a, BridgeEff.spawned ((step s (.exit code signal)).1.procCount + 1)
          ∈ (step (step s (.exit code signal)).1 (.call a)).2) ∧
      (∀ key : String, key ≠ "" →
        (ensureInitialised (step s (.exit code signal)).1 (some key)).2.2 =
          .requestSent (step s (.exit code signal)).1.nextReq) := by
  intro s code signal hwf
  rw [step_exit_eq]
  obtain ⟨hp, hc, hi⟩ := onExit_state_reset s code signal
  have hwf' : WF (onExit s code signal).1 := (onExit_wf hwf code signal).1
  have hnr : (onExit s code signal).1.nextReq = s.nextReq :=
    (onExit_wf hwf code signal).2
  refine ⟨?_, hp, hc, hi, ?_, ?_, ?_⟩
  · intro id hid
    exact onExit_rejects hid code signal
  · intro id hid cmds
    have hlt : id < (onExit s code signal).1.nextReq := by
      rw [hnr]
      exact hwf.1 id hid
    have hnp : id ∉ (onExit s code signal).1.pending := by
      rw [hp]
      exact List.not_mem_nil id
    exact (run_stale cmds (onExit s code signal).1 hwf' hnp hlt).1
  · intro a
    exact call_spawns_of_no_child hc a
  · intro key hk
    exact ensureInitialised_sends_of_uninit hi hk

/-- C1 witness: a state with one live child and one pending call, exiting
with code 1. -/
theorem claim_C1_witness :
    BridgeEff.rejectedP 0 (exitReason (some 1) none)
      ∈ (step ⟨some 1, 1, true, 1, [0], none, none⟩
          (.exit (some 1) none)).2 ∧
    (step ⟨some 1, 1, true, 1, [0], none, none⟩
        (.exit (some 1) none)).1.child = none ∧
    (step ⟨some 1, 1, true, 1, [0], none, none⟩
        (.exit (some 1) none)).1.initialized = false := by
  have h := claim_C1_exit_rejects_and_resets
    ⟨some 1, 1, true, 1, [0], none, none⟩ (some 1) none
    ⟨by decide, by decide, by simp, by simp⟩
  exact ⟨h.1 0 (by decide), h.2.2.1, h.2.2.2.1⟩

/-! ## C4: cancellation is local-only and late responses are discarded -/

/-- C4: invoking the cancel closure of a pending call removes its
correlation entry and rejects its promise with the abort error (the
`Cancelled` error of the taxonomy), without touching the child process —
no kill, no write, the handle unchanged — and afterwards no effect of any
later run ever mentions that id again: late `result`, `error` or `event`
lines bearing it are silently discarded, and no new call reuses it.  (The
hypothesis that no shutdown awaits the id always holds in practice: the
shutdown call never exposes its cancel closure.) -/
theorem claim_C4_cancel_local_discards_late :
    ∀ (s : BridgeState) (id : Nat), WF s → id ∈ s.pending →
      s.shutdownWait ≠ some id →
      BridgeEff.rejectedP id .abort ∈ (step s (.cancel id)).2 ∧
      id ∉ (step s (.cancel id)).1.pending ∧
      (step s (.cancel id)).1.child = s.child ∧
      (∀ g, BridgeEff.killedChild g ∉ (step s (.cancel id)).2) ∧
      (∀ g j a, BridgeEff.wrote g j a ∉ (step s (.cancel id)).2) ∧
      (∀ cmds, ∀ e ∈ (run (step s (.cancel id)).1 cmds).2,
        mentions id e = false) := by
  intro s id hwf hmem hsw
  rw [step_cancel_eq]
  have hsw₁ : ({ s with pending := s.pending.erase id }
      : BridgeState).shutdownWait ≠ some id := hsw
  have heq : cancelCall s id =
      (settleContInit { s with pending := s.pending.erase id } id none,
       settleRejectEffs id .abort ++ []) := by
    simp only [cancelCall, if_pos hmem, settleCont_no_dispose none hsw₁]
  rw [heq]
  have hshape := settleContInit_shape
    { s with pending := s.pending.erase id } id none
  have hpend : (settleContInit { s with pending := s.pending.erase id }
      id none).pending = s.pending.erase id := hshape.1
  refine ⟨?_, ?_, ?_, ?_, ?_, ?_⟩
  · simp [settleRejectEffs]
  · rw [hpend]
    exact hwf.2.1.not_mem_erase
  · exact hshape.2.2.1
  · intro g
    simp [settleRejectEffs]
  · intro g j a
    simp [settleRejectEffs]
  · intro cmds
    have hwf' : WF (settleContInit { s with pending := s.pending.erase id }
        id none) := settleContInit_wf (erase_wf hwf id)
    have hnp : id ∉ (settleContInit { s with pending := s.pending.erase id }
        id none).pending := by
      rw [hpend]
      exact hwf.2.1.not_mem_erase
    have hlt : id < (settleContInit { s with pending := s.pending.erase id }
        id none).nextReq := by
      rw [hshape.2.1]
      exact hwf.1 id hmem
    exact (run_stale cmds _ hwf' hnp hlt).1

/-- C4 witness: cancelling call 1 of two pending calls. -/
theorem claim_C4_witness :
    BridgeEff.rejectedP 1 .abort
      ∈ (step ⟨some 1, 1, true, 2, [0, 1], none, none⟩ (.cancel 1)).2 ∧
    1 ∉ (step ⟨some 1, 1, true, 2, [0, 1], none, none⟩ (.cancel 1)).1.pending ∧
    (step ⟨some 1, 1, true, 2, [0, 1], none, none⟩
        (.cancel 1)).1.child = some 1 := by
  have h := claim_C4_cancel_local_discards_late
    ⟨some 1, 1, true, 2, [0, 1], none, none⟩ 1
    ⟨by decide, by decide, by simp, by simp⟩ (by decide) (by simp)
  exact ⟨h.1, h.2.1, h.2.2.1⟩

/-! ## C6: shutdown has no bounded wait -/

/-- C6 counterexample: from a fresh bridge, a `chat` call followed by
`shutdown` where the worker never answers (no further activation occurs —
the code installs no timer that could fire): the child is still alive,
both correlations (the chat call and the shutdown request itself) are
still pending, and the complete effect list contains no kill and no
rejection — refuting the claim that shutdown waits only a bounded time
before forcibly terminating the process and rejecting the remaining
correlations. -/
theorem claim_C6_counterexample :
    (run initState [Cmd.call "chat", Cmd.shutdownBegin]).1.child = some 1 ∧
    (run initState [Cmd.call "chat", Cmd.shutdownBegin]).1.pending
      = [0, 1] ∧
    (run initState [Cmd.call "chat", Cmd.shutdownBegin]).2 =
      [.spawned 1, .wrote 1 0 "chat", .wrote 1 1 "shutdown"] := by
  decide

/-- C6 (amended): shutdown sends the graceful-termination request and
records its correlation, then waits WITHOUT bound; only when that
correlation settles (the worker replies, or an in-band error or process
exit rejects it) does dispose run: the child is killed if still alive,
every remaining pending correlation is rejected with the
process-terminated error, and the map and handle are cleared.  If the
worker neither answers nor exits, shutdown never completes. -/
theorem claim_C6_shutdown_unbounded_wait_then_dispose :
    ∀ (s : BridgeState) (id : Nat) (p : Option WireVal),
      s.shutdownWait = some id → id ∈ s.pending →
      (step s (.line (some ⟨"result", some id, p, none⟩))).1.child = none ∧
      (step s (.line (some ⟨"result", some id, p, none⟩))).1.pending = [] ∧
      (step s (.line (some ⟨"result", some id, p, none⟩))).1.shutdownWait
        = none ∧
      (∀ j ∈ s.pending, j ≠ id →
        BridgeEff.rejectedP j .processTerminated
          ∈ (step s (.line (some ⟨"result", some id, p, none⟩))).2) ∧
      (∀ g, s.child = some g →
        BridgeEff.killedChild g
          ∈ (step s (.line (some ⟨"result", some id, p, none⟩))).2) ∧
      (∃ g, BridgeEff.wrote g s.nextReq "shutdown"
        ∈ (step s .shutdownBegin).2) ∧
      (step s .shutdownBegin).1.shutdownWait = some s.nextReq := by
  intro s id p hsw hmem
  have hsw₁ : ({ s with pending := s.pending.erase id }
      : BridgeState).shutdownWait = some id := hsw
  rw [step_line_eq, handleLine_result_eq hmem p none,
    settleCont_dispose_eq (some p) hsw₁]
  have hshape := settleContInit_shape
    { s with pending := s.pending.erase id } id (some p)
  have hXpend : ({ settleContInit { s with pending := s.pending.erase id }
      id (some p) with shutdownWait := none } : BridgeState).pending
      = s.pending.erase id := hshape.1
  have hXchild : ({ settleContInit { s with pending := s.pending.erase id }
      id (some p) with shutdownWait := none } : BridgeState).child
      = s.child := hshape.2.2.1
  refine ⟨by simp [dispose], by simp [dispose], by simp [dispose],
    ?_, ?_, ?_, ?_⟩
  · intro j hj hne
    refine List.mem_append.mpr (.inr (mem_dispose_reject ?_))
    rw [hXpend]
    exact (List.mem_erase_of_ne hne).mpr hj
  · intro g hg
    refine List.mem_append.mpr (.inr (mem_dispose_kill ?_))
    rw [hXchild]
    exact hg
  · exact shutdownBegin_writes s
  · exact shutdownBegin_wait s

/-- C6 amended witness: a state awaiting shutdown on correlation 1 with
call 0 still pending; the worker acknowledges, dispose kills generation 1
and rejects call 0. -/
theorem claim_C6_witness :
    (step ⟨some 1, 1, true, 2, [0, 1], none, some 1⟩
        (.line (some ⟨"result", some 1, some .objVal, none⟩))).1.child
      = none ∧
    (step ⟨some 1, 1, true, 2, [0, 1], none, some 1⟩
        (.line (some ⟨"result", some 1, some .objVal, none⟩))).1.pending
      = [] ∧
    BridgeEff.rejectedP 0 .processTerminated
      ∈ (step ⟨some 1, 1, true, 2, [0, 1], none, some 1⟩
          (.line (some ⟨"result", some 1, some .objVal, none⟩))).2 ∧
    BridgeEff.killedChild 1
      ∈ (step ⟨some 1, 1, true, 2, [0, 1], none, some 1⟩
          (.line (some ⟨"result", some 1, some .objVal, none⟩))).2 := by
  have h := claim_C6_shutdown_unbounded_wait_then_dispose
    ⟨some 1, 1, true, 2, [0, 1], none, some 1⟩ 1 (some .objVal)
    rfl (by decide)
  exact ⟨h.1, h.2.1, h.2.2.2.1 0 (by decide) (by decide),
    h.2.2.2.2.1 1 rfl⟩

/-! ## C8: initialize is idempotent after success -/

/-- C8: from an uninitialized well-formed state, `ensureInitialised` with
a usable key sends the handshake under the fresh correlation id; once the
worker answers that correlation with a terminal result whose payload is
an object (the capability descriptor), the client records initialization,
and a second `ensureInitialised` with the same credentials is a pure
no-op: no state change, no effect at all (in particular no worker
interaction), and it resolves immediately the same way the first call's
promise resolved (with no value). -/
theorem claim_C8_initialize_idempotent :
    ∀ (s : BridgeState) (key : String), WF s → s.initialized = false →
      key ≠ "" →
      (ensureInitialised s (some key)).2.2 = .requestSent s.nextReq ∧
      (step (ensureInitialised s (some key)).1
          (.line (some ⟨"result", some s.nextReq, some .objVal, none⟩))
        ).1.initialized = true ∧
      ensureInitialised
        (step (ensureInitialised s (some key)).1
          (.line (some ⟨"result", some s.nextReq, some .objVal, none⟩))).1
        (some key) =
      ((step (ensureInitialised s (some key)).1
          (.line (some ⟨"result", some s.nextReq, some .objVal, none⟩))).1,
       [], .alreadyInitialized) := by
  intro s key hwf hinit hk
  have hs₁ := ensureInitialised_state_of_uninit hinit hk
  have hpendA : (ensureInitialised s (some key)).1.pending =
      s.pending ++ [s.nextReq] := by
    rw [hs₁]
    exact (callWithStream_shape s "initialize").1
  have hmemA : s.nextReq ∈ (ensureInitialised s (some key)).1.pending := by
    rw [hpendA]
    exact List.mem_append.mpr (.inr (List.mem_singleton.mpr rfl))
  have hiwA : ({ (ensureInitialised s (some key)).1 with
      pending := (ensureInitialised s (some key)).1.pending.erase s.nextReq }
      : BridgeState).initWait = some s.nextReq := by
    rw [hs₁]
  have hswA : ({ (ensureInitialised s (some key)).1 with
      pending := (ensureInitialised s (some key)).1.pending.erase s.nextReq }
      : BridgeState).shutdownWait ≠ some s.nextReq := by
    rw [hs₁]
    show (callWithStream s "initialize").1.shutdownWait ≠ some s.nextReq
    rw [(callWithStream_shape s "initialize").2.2.2.1]
    intro hc
    exact absurd (hwf.2.2.2 _ hc) (lt_irrefl _)
  rw [step_line_eq, handleLine_result_eq hmemA (some .objVal) none,
    settleCont_no_dispose (some (some .objVal)) hswA,
    settleContInit_sets_initialized hiwA]
  exact ⟨ensureInitialised_sends_of_uninit hinit hk, rfl,
    ensureInitialised_noop rfl (some key)⟩

/-- C8 witness: the fresh client initialized with key `k`. -/
theorem claim_C8_witness :
    (ensureInitialised initState (some "k")).2.2 = .requestSent 0 ∧
    (step (ensureInitialised initState (some "k")).1
        (.line (some ⟨"result", some 0, some .objVal, none⟩))
      ).1.initialized = true := by
  have h := claim_C8_initialize_idempotent initState "k" initState_wf rfl
    (by decide)
  exact ⟨h.1, h.2.1⟩

/-- C3: the worker answers `chat` with three `delta` events `"Hel"`,
`"lo "`, `"world"` and a terminal result whose usage is
`{totalTokens: 10}`; the adapted stream yields exactly the three text
chunks in order followed by exactly one terminal chunk carrying that
usage value, with nothing dropped, duplicated or thrown. -/
theorem claim_C3_chat_stream_scenario :
    generatorRun
      [⟨some "delta", some "Hel", none, none, none⟩,
       ⟨some "delta", some "lo ", none, none, none⟩,
       ⟨some "delta", some "world", none, none, none⟩]
      (StreamOutcome.ok { content := [], usage := some (⟨10⟩ : UsageMetadata) })
    = ([.text "Hel", .text "lo ", .text "world",
        .final [""] (some ⟨10⟩)], none) := by
  decide

end MultiCli
